import Mathlib

/-!
Verification of the contact-point / mute-timing provisioning resources of the
terraform-provider-grafana repository, as a shallow embedding in Lean 4.

Sources embedded here:
  - resource_alerting_contact_point.go (given as src/unnamed/part_000):
    updateContactPoint, readContactPoint, deleteContactPoint, unpackPointConfig,
    packContactPoints, packSettings, packSecureFields,
    getNotifierConfigFromStateWithUID, packCommonNotifierFields.
  - resource_alerting_mute_timing.go: suppressMonthDiff, packIntervals,
    unpackIntervals, packTimeRange, unpackTimeRange, deleteMuteTiming,
    updateMuteTiming.

Go maps are modelled as association lists, Go interface values for settings as
a small sum type, fallible calls as Except, and the remote alerting backend
(an external collaborator of this repository) as an explicit state machine
following the boundary contracts of the specification.
-/

set_option maxRecDepth 8000

namespace Grafana

/-! ## Small association-map library (model of Go map[string]T) -/

/-- Insert-or-replace for an association list, the model of a Go map write. -/
def mput {α : Type} : List (String × α) → String → α → List (String × α)
  | [], k, v => [(k, v)]
  | (k0, v0) :: rest, k, v =>
    if k0 = k then (k, v) :: rest else (k0, v0) :: mput rest k v

/-! ## Settings values

Go settings maps are map[string]interface de-facto holding strings, booleans
and numbers.  goSharp models the Go fmt "%#v" rendering used by packSettings
(string escaping beyond the surrounding quotes is elided, which is irrelevant
to every property proved below). -/

inductive SVal where
  | str (s : String)
  | boolv (b : Bool)
  | intv (n : Int)
deriving DecidableEq, Repr

/-- Go fmt %#v rendering of a settings value. -/
def goSharp : SVal → String
  | .str s => "\x22" ++ s ++ "\x22"
  | .boolv b => if b then "true" else "false"
  | .intv n => toString n

/-! ## Contact point payloads and records -/

/-- models.EmbeddedContactPoint: the backend-ready object built by a codec
unpack and sent on create/update calls. -/
structure EmbeddedContactPoint where
  name : String
  type : String
  disableResolveMessage : Bool
  settings : List (String × SVal)
deriving DecidableEq, Repr

/-- One backend contact-point record as returned by the provisioning API:
an EmbeddedContactPoint together with its server-assigned UID. -/
structure Record where
  uid : String
  name : String
  type : String
  disableResolveMessage : Bool
  settings : List (String × SVal)
deriving DecidableEq, Repr

/-! ## packSettings and unpackPointConfig (Settings Normalizer halves) -/

/-- packSettings, part_000 lines 294-300: render every remaining backend
settings value with fmt "%#v" into the external settings map.  No key is
removed here. -/
def packSettings (settings : List (String × SVal)) : List (String × String) :=
  settings.map (fun kv => (kv.1, goSharp kv.2))

/-- unpackPointConfig, part_000 lines 247-257: after the per-kind codec
unpack (whose output is taken as the argument), delete every settings key
whose value is the empty string before the payload is sent. -/
def unpackPointConfig (pt : EmbeddedContactPoint) : EmbeddedContactPoint :=
  { pt with settings := pt.settings.filter (fun kv => !(kv.2 == SVal.str "")) }

/-! ## packSecureFields and getNotifierConfigFromStateWithUID -/

/-- Static notifier metadata, part_000 lines 337-342. -/
structure NotifierMeta where
  field : String
  typeStr : String
  secureFields : List String
deriving DecidableEq, Repr

/-- packSecureFields, part_000 lines 356-362: for every secure field name,
copy the value found in the previously-declared state block (never anything
from the backend record, which this function does not even receive) into the
packed settings. -/
def packSecureFields (tfSettings : List (String × String))
    (state : List (String × String)) (secureFields : List String) :
    List (String × String) :=
  secureFields.foldl
    (fun acc tfKey =>
      match List.lookup tfKey state with
      | some v => mput acc tfKey v
      | none => acc)
    tfSettings

/-- getNotifierConfigFromStateWithUID, part_000 lines 370-381: UID-keyed
lookup into the declared state for one notifier kind.  The declared instances
for the kind are data.GetOk of the kind's field: none when the field is unset.
A Go nil map result is modelled as the empty association list (both fail every
lookup). -/
def getNotifierConfigFromStateWithUID
    (points : Option (List (List (String × String)))) (uid : String) :
    List (String × String) :=
  match points with
  | none => []
  | some pts =>
    match pts.find? (fun config => List.lookup "uid" config == some uid) with
    | some config => config
    | none => []

/-! ## Error routing of the mute-timing and contact-point delete/update paths -/

/-- Backend call failure as seen through the go-openapi client. -/
inductive ApiError8 where
  | notFound
  | other (msg : String)
deriving DecidableEq, Repr

/-- Terraform diagnostics outcome of one resource operation. -/
inductive Diag where
  | ok
  | warnMissing (resource : String)
  | fatal (msg : String)
deriving DecidableEq, Repr

/-- common.IsNotFoundError: recognizes the structured not-found failure. -/
def IsNotFoundError : ApiError8 → Bool
  | .notFound => true
  | .other _ => false

/-- diag.FromErr: any error becomes a fatal error diagnostic. -/
def fromErr : ApiError8 → Diag
  | .notFound => .fatal "not found"
  | .other m => .fatal m

/-- Modelled from the spec: common.CheckReadError (its source file is not
among the provided files).  Per the specification error taxonomy, absence of
the resource is surfaced as a soft resource-missing warning that removes the
resource from tracked state, every other failure is fatal, and success
continues the operation. -/
def CheckReadError (resource : String) (err : Option ApiError8) : Diag × Bool :=
  match err with
  | none => (.ok, false)
  | some e => if IsNotFoundError e then (.warnMissing resource, true) else (fromErr e, true)

/-- deleteMuteTiming, resource_alerting_mute_timing.go lines 173-179: the
outcome of the DeleteMuteTiming backend call is routed through
CheckReadError and the resulting diagnostics are returned. -/
def deleteMuteTiming (delErr : Option ApiError8) : Diag :=
  (CheckReadError "mute timing" delErr).1

/-- updateMuteTiming error routing, resource_alerting_mute_timing.go lines
166-169: a failing PutMuteTiming call is returned through diag.FromErr. -/
def updateMuteTimingPutDiag (putErr : Option ApiError8) : Diag :=
  match putErr with
  | some e => fromErr e
  | none => .ok

/-- updateContactPoint update-branch error routing, part_000 lines 171-174:
a failing PutContactpoint call is returned through diag.FromErr. -/
def putContactPointDiag (putErr : Option ApiError8) : Diag :=
  match putErr with
  | some e => fromErr e
  | none => .ok

/-- deleteContactPoint delete-call error routing, part_000 lines 221-225:
a failing DeleteContactpoints call is returned through diag.FromErr. -/
def deleteContactPointDelDiag (delErr : Option ApiError8) : Diag :=
  match delErr with
  | some e => fromErr e
  | none => .ok

/-- updateContactPoint fetch-current, part_000 lines 154-163: a not-found
failure of the by-name fetch is tolerated and yields the empty current set. -/
def fetchCurrentPoints (res : Except ApiError8 (List Record)) :
    Except Diag (List Record) :=
  match res with
  | .ok l => .ok l
  | .error e => if IsNotFoundError e then .ok [] else .error (fromErr e)

/-! ## suppressMonthDiff (month-range diff suppression) -/

/-- Go strings.ReplaceAll on character lists, via a fuel argument equal to the
input length (leftmost, non-overlapping).  An empty pattern leaves the string
unchanged (Go would interleave the replacement; no caller uses an empty
pattern). -/
def goReplaceAllFuel (pat rep : List Char) : Nat → List Char → List Char
  | 0, s => s
  | _, [] => []
  | fuel + 1, c :: cs =>
    if pat ≠ [] ∧ pat.isPrefixOf (c :: cs) then
      rep ++ goReplaceAllFuel pat rep fuel (List.drop pat.length (c :: cs))
    else
      c :: goReplaceAllFuel pat rep fuel cs

/-- Go strings.ReplaceAll on strings. -/
def goReplaceAll (s pat rep : String) : String :=
  String.mk (goReplaceAllFuel pat.data rep.data s.data.length s.data)

/-- The monthNums table of suppressMonthDiff, resource_alerting_mute_timing.go
lines 182-195.  Go iterates it in unspecified map order; the replacements are
mutually non-interfering for these twelve patterns (no month name is a
substring of another and the digits introduced occur in no month name), so a
fixed order is a faithful model. -/
def monthNums : List (String × Nat) :=
  [("january", 1), ("february", 2), ("march", 3), ("april", 4), ("may", 5),
   ("june", 6), ("july", 7), ("august", 8), ("september", 9), ("october", 10),
   ("november", 11), ("december", 12)]

/-- suppressMonthDiff, resource_alerting_mute_timing.go lines 181-205.  The
schema key and the surrounding resource state (both ignored by the source) are
the first and last arguments. -/
def suppressMonthDiff {σ : Type} (k oldValue newValue : String) (d : σ) : Bool :=
  let oldNormalized :=
    monthNums.foldl (fun acc p => goReplaceAll acc p.1 (toString p.2)) oldValue
  let newNormalized :=
    monthNums.foldl (fun acc p => goReplaceAll acc p.1 (toString p.2)) newValue
  oldNormalized == newNormalized

/-- The month normalization read off the specification: replace every full
month name by its month number. -/
def monthNormalize (s : String) : String :=
  monthNums.foldl (fun acc p => goReplaceAll acc p.1 (toString p.2)) s

/-! ## Mute-timing interval codec (packIntervals / unpackIntervals)

The packed form is a Go []interface of map[string]interface blocks.  The
interface values that can appear in a block are modelled by IVal; the two
range-list constructors record the dynamic type of the list elements, because
packTimeRange emits map[string]string blocks while unpackTimeRange
type-asserts map[string]interface ones. -/

structure TimeIntervalRange where
  startTime : String
  endTime : String
deriving DecidableEq, Repr

/-- models.TimeInterval.  A Go nil slice is none, a non-nil slice is some;
the zero Location is the empty string. -/
structure TimeInterval where
  times : Option (List TimeIntervalRange)
  weekdays : Option (List String)
  daysOfMonth : Option (List String)
  months : Option (List String)
  years : Option (List String)
  location : String
deriving DecidableEq, Repr

/-- A packed time range block: the keys start and end with string values. -/
structure RawRange where
  start : String
  stop : String
deriving DecidableEq, Repr

/-- Dynamic values inside one packed interval block. -/
inductive IVal where
  | rangesS (rs : List RawRange)
  | rangesI (rs : List RawRange)
  | strs (ss : List String)
  | str (s : String)
  | inil
deriving DecidableEq, Repr

/-- packTimeRange, resource_alerting_mute_timing.go lines 283-288: emits a
map[string]string block. -/
def packTimeRange (t : TimeIntervalRange) : RawRange :=
  ⟨t.startTime, t.endTime⟩

/-- unpackTimeRange, resource_alerting_mute_timing.go lines 290-296 (the
map[string]interface assertion on the argument is handled at the call
site in unpackTimesVal). -/
def unpackTimeRange (r : RawRange) : TimeIntervalRange :=
  ⟨r.start, r.stop⟩

/-- packIntervals body for one interval, resource_alerting_mute_timing.go
lines 213-238: keys are written only for non-nil fields and a non-empty
location.  common.StringSliceToList (not among the provided files) is the
evident conversion of a []string to a []interface of strings. -/
def packInterval (ti : TimeInterval) : List (String × IVal) :=
  (match ti.times with
   | some ts => [("times", IVal.rangesS (ts.map packTimeRange))]
   | none => []) ++
  (match ti.weekdays with
   | some ss => [("weekdays", IVal.strs ss)]
   | none => []) ++
  (match ti.daysOfMonth with
   | some ss => [("days_of_month", IVal.strs ss)]
   | none => []) ++
  (match ti.months with
   | some ss => [("months", IVal.strs ss)]
   | none => []) ++
  (match ti.years with
   | some ss => [("years", IVal.strs ss)]
   | none => []) ++
  (if ti.location == "" then [] else [("location", IVal.str ti.location)])

/-- packIntervals, resource_alerting_mute_timing.go lines 207-241. -/
def packIntervals (nts : Option (List TimeInterval)) :
    Option (List (List (String × IVal))) :=
  match nts with
  | none => none
  | some l => some (l.map packInterval)

/-- Reading the times key: vals.([]interface) succeeds on any modelled list;
each element is then asserted to map[string]interface, which panics (outer
none) on the map[string]string blocks that packTimeRange emits, unless the
list is empty and the loop body never runs.  A present nil value is skipped
(the field stays nil). -/
def unpackTimesVal : IVal → Option (Option (List TimeIntervalRange))
  | .inil => some none
  | .rangesI rs => some (some (rs.map unpackTimeRange))
  | .rangesS rs => if rs.isEmpty then some (some []) else none
  | .strs ss => if ss.isEmpty then some (some []) else none
  | .str _ => none

/-- Reading a string-list key via common.ListToStringSlice (the evident
conversion, asserting each element to string). -/
def unpackStringsVal : IVal → Option (Option (List String))
  | .inil => some none
  | .strs ss => some (some ss)
  | .rangesS rs => if rs.isEmpty then some (some []) else none
  | .rangesI rs => if rs.isEmpty then some (some []) else none
  | .str _ => none

/-- Reading the location key: a string assertion; a present nil is skipped. -/
def unpackLocationVal : IVal → Option String
  | .str s => some s
  | .inil => some ""
  | _ => none

/-- unpackIntervals body for one block, resource_alerting_mute_timing.go
lines 250-277.  The outer Option is a Go panic on a failed type assertion. -/
def unpackInterval (block : List (String × IVal)) : Option TimeInterval := do
  let times ← match List.lookup "times" block with
    | none => some none
    | some v => unpackTimesVal v
  let weekdays ← match List.lookup "weekdays" block with
    | none => some none
    | some v => unpackStringsVal v
  let daysOfMonth ← match List.lookup "days_of_month" block with
    | none => some none
    | some v => unpackStringsVal v
  let months ← match List.lookup "months" block with
    | none => some none
    | some v => unpackStringsVal v
  let years ← match List.lookup "years" block with
    | none => some none
    | some v => unpackStringsVal v
  let location ← match List.lookup "location" block with
    | none => some ""
    | some v => unpackLocationVal v
  pure ⟨times, weekdays, daysOfMonth, months, years, location⟩

/-- The result-building loop of unpackIntervals over the blocks, in order;
none on the first failed type assertion. -/
def unpackIntervalsList : List (List (String × IVal)) → Option (List TimeInterval)
  | [] => some []
  | b :: rest => do
    let ti ← unpackInterval b
    let tis ← unpackIntervalsList rest
    pure (ti :: tis)

/-- unpackIntervals, resource_alerting_mute_timing.go lines 243-281. -/
def unpackIntervals (raw : Option (List (List (String × IVal)))) :
    Option (Option (List TimeInterval)) :=
  match raw with
  | none => some none
  | some l =>
    match unpackIntervalsList l with
    | none => none
    | some tis => some (some tis)

/-- Modelled from the spec: the declarative-configuration runtime (out of
scope, section 1) stores the packed tree and hands it back with every nested
block re-presented as a map[string]interface value; on the interval blocks
this turns the packed map[string]string range entries into
map[string]interface ones. -/
def tfNormalizeVal : IVal → IVal
  | .rangesS rs => .rangesI rs
  | v => v

/-- The runtime re-presentation applied to one packed interval block. -/
def tfNormalizeInterval (block : List (String × IVal)) : List (String × IVal) :=
  block.map (fun kv => (kv.1, tfNormalizeVal kv.2))

/-! ## Notifier registry and the read-path packing -/

/-- One notifier codec: its static metadata and its pack capability.  The
roughly twenty per-kind codec implementations live outside the provided
files; theorems abstract over the pack function or use the model codec
below. -/
structure Notifier (π : Type) where
  meta : NotifierMeta
  pack : Record → Except String π

/-- Inner loop of packContactPoints, part_000 lines 264-273, for one backend
record: walk the registry in order, appending the packed record to the
per-kind list of every codec whose type tag matches, and failing on the
first failing pack. -/
def packOneRecord {π : Type} :
    List (Notifier π) → List (List π) → Record → Except String (List (List π))
  | [], acc, _ => Except.ok acc
  | n :: ns, acc, p =>
    let l := acc.headD []
    let rest := acc.tail
    if p.type == n.meta.typeStr then
      match n.pack p with
      | .error e => .error e
      | .ok packed =>
        match packOneRecord ns rest p with
        | .error e => .error e
        | .ok rest2 => .ok ((l ++ [packed]) :: rest2)
    else
      match packOneRecord ns rest p with
      | .error e => .error e
      | .ok rest2 => .ok (l :: rest2)

/-- Outer loop of packContactPoints over the records, threading the
per-kind accumulated lists. -/
def packCPAux {π : Type} (ns : List (Notifier π)) :
    List Record → List (List π) → Except String (List (List π))
  | [], acc => .ok acc
  | p :: ps, acc =>
    match packOneRecord ns acc p with
    | .error e => .error e
    | .ok acc2 => packCPAux ns ps acc2

/-- packContactPoints, part_000 lines 259-281, as the per-kind packed lists
in registry order (kinds that received no record get the empty list; the Go
original simply does not touch their field in that case). -/
def packContactPoints {π : Type} (ns : List (Notifier π)) (ps : List Record) :
    Except String (List (List π)) :=
  packCPAux ns ps (ns.map (fun _ => []))

/-- Modelled from the spec: the packed external form of one backend record
for the per-kind codec pack (section 4.2): the common fields uid and
disable_resolve_message are always packed (packCommonNotifierFields,
part_000 lines 287-292) and the residual settings are stringified
(packSettings). -/
structure PackedPoint where
  uid : String
  disableResolveMessage : Bool
  settings : List (String × String)
deriving DecidableEq, Repr

/-- The model codec pack over the source helpers. -/
def modelPack (p : Record) : PackedPoint :=
  ⟨p.uid, p.disableResolveMessage, packSettings p.settings⟩

/-- A registry in which every kind packs with the model codec. -/
def modelRegistry (metas : List NotifierMeta) : List (Notifier PackedPoint) :=
  metas.map (fun m => ⟨m, fun p => Except.ok (modelPack p)⟩)

/-! ## readContactPoint, legacy UID-list import path -/

/-- Structured failures of the contact-point read. -/
inductive ReadErr where
  | nameMismatch (uid2 name2 uid1 name1 : String)
  | uidNotFound (uid : String)
  | packFailed (msg : String)
  | warnMissing
deriving DecidableEq, Repr

/-- Go strings.Split on the semicolon, via the character list. -/
def splitSemiAux : List Char → List Char → List String
  | [], acc => [String.mk acc.reverse]
  | c :: cs, acc =>
    if c = ';' then String.mk acc.reverse :: splitSemiAux cs []
    else splitSemiAux cs (c :: acc)

/-- strings.Split(id, semicolon), part_000 line 108. -/
def splitSemi (s : String) : List String := splitSemiAux s.data []

/-- The key set of the uidsMap built on part_000 lines 107-110 (first
occurrences; Go map keys carry no order). -/
def uidKeys (us : List String) : List String :=
  us.foldl (fun ks u => if u ∈ ks then ks else ks ++ [u]) []

/-- The resolution loop of part_000 lines 115-124: walk the full fetched
payload with its index, collect every record whose UID is expected, mark it
found, and fail on the first collected record (at payload index above zero)
whose name differs from the first collected record's name. -/
def legacyLoop :
    List Record → Nat → List String → List Record → List String →
    Except ReadErr (List Record × List String)
  | [], _, _, points, found => Except.ok (points, found)
  | p :: rest, i, keys, points, found =>
    if p.uid ∈ keys then
      let found2 := found ++ [p.uid]
      let points2 := points ++ [p]
      match points2 with
      | [] => legacyLoop rest (i + 1) keys points2 found2
      | p0 :: _ =>
        if i > 0 ∧ p.name ≠ p0.name then
          Except.error (ReadErr.nameMismatch p.uid p.name p0.uid p0.name)
        else legacyLoop rest (i + 1) keys points2 found2
    else legacyLoop rest (i + 1) keys points found

/-- The not-found check of part_000 lines 126-131 (Go map iteration order is
unspecified; the first missing key in first-occurrence order is named). -/
def firstMissing (keys found : List String) : Option String :=
  keys.find? (fun u => !(found.contains u))

/-- The read result: the composite identifier parts and the packed tree. -/
structure ReadOutcome (π : Type) where
  orgID : Nat
  name : String
  tree : List (List π)
deriving Repr

/-- readContactPoint, part_000 lines 104-144, on the legacy semicolon-joined
UID identifier, after the by-name fetch returned no records: resolve every
listed UID against the full fetched payload, then check for unresolved UIDs,
then pack and build the (organization, name) identifier from the first
resolved record. -/
def readLegacyImport {π : Type} (ns : List (Notifier π)) (orgID : Nat)
    (idStr : String) (payload : List Record) : Except ReadErr (ReadOutcome π) :=
  let keys := uidKeys (splitSemi idStr)
  match legacyLoop payload 0 keys [] [] with
  | .error e => .error e
  | .ok (points, found) =>
    match firstMissing keys found with
    | some u => .error (.uidNotFound u)
    | none =>
      match points with
      | [] => .error .warnMissing
      | p0 :: _ =>
        match packContactPoints ns points with
        | .error m => .error (.packFailed m)
        | .ok tree => .ok ⟨orgID, p0.name, tree⟩

/-! ## Reconciliation pipeline (updateContactPoint)

The remote alerting backend is an external collaborator (section 6 of the
specification): it is modelled as an explicit state machine whose create
operation assigns a fresh, non-empty UID.  Injected failures of create
attempts are scripted; the wall-clock retry budget of retry.RetryContext
(an external library) is abstracted as fuel, the number of further attempts
the two-minute budget still allows. -/

/-- A backend call failure carrying the HTTP status code, as inspected by
runtime.APIError.IsCode. -/
structure APIError where
  code : Nat
deriving DecidableEq, Repr

/-- One issued backend write call, for counting the applied plan. -/
inductive Call where
  | create
  | update (uid : String)
  | delete (uid : String)
deriving DecidableEq, Repr

def isCreate : Call → Bool
  | .create => true
  | _ => false

def isUpdate : Call → Bool
  | .update _ => true
  | _ => false

def isDelete : Call → Bool
  | .delete _ => true
  | _ => false

/-- Modelled from the spec: the remote contact-point store (section 6
boundary contracts). -/
structure BackendState where
  records : List Record
  nextUID : Nat
deriving DecidableEq, Repr

/-- Server-assigned UIDs; never empty. -/
def freshUID (n : Nat) : String := "cp" ++ toString n

def mkRecord (uid : String) (b : EmbeddedContactPoint) : Record :=
  ⟨uid, b.name, b.type, b.disableResolveMessage, b.settings⟩

/-- Modelled from the spec: createContactPoint assigns a fresh UID. -/
def backendPost (st : BackendState) (body : EmbeddedContactPoint) :
    BackendState × String :=
  let uid := freshUID st.nextUID
  (⟨st.records ++ [mkRecord uid body], st.nextUID + 1⟩, uid)

/-- Modelled from the spec: updateContactPoint replaces the record with the
given UID in place. -/
def backendPut (st : BackendState) (uid : String) (body : EmbeddedContactPoint) :
    BackendState :=
  ⟨st.records.map (fun r => if r.uid == uid then mkRecord uid body else r),
   st.nextUID⟩

/-- Modelled from the spec: deleteContactPoint removes the record. -/
def backendDelete (st : BackendState) (uid : String) : BackendState :=
  ⟨st.records.filter (fun r => !(r.uid == uid)), st.nextUID⟩

/-- Modelled from the spec: listContactPoints filtered by name. -/
def backendGetByName (st : BackendState) (name : String) : List Record :=
  st.records.filter (fun r => r.name == name)

/-- The retry.RetryContext wrapper around PostContactpoints, part_000 lines
179-188: attempt k is scripted to fail (some e) or to succeed against the
backend (none); a failure is retried exactly when the organization is not
the default one and the status is 500, while fuel lasts.  Exhaustion of the
budget surfaces the last transient error (with no fuel left, retryable and
non-retryable failures end identically, so the retryability check is elided
in that branch). -/
def retryCreate (orgID : Nat) (script : Nat → Option APIError)
    (body : EmbeddedContactPoint) :
    Nat → Nat → BackendState → BackendState × List Call × Except APIError String
  | k, 0, st =>
    match script k with
    | none =>
      let r := backendPost st body
      (r.1, [Call.create], Except.ok r.2)
    | some e => (st, [Call.create], Except.error e)
  | k, fuel2 + 1, st =>
    match script k with
    | none =>
      let r := backendPost st body
      (r.1, [Call.create], Except.ok r.2)
    | some e =>
      if orgID > 1 ∧ e.code = 500 then
        let r := retryCreate orgID script body (k + 1) fuel2 st
        (r.1, Call.create :: r.2.1, r.2.2)
      else (st, [Call.create], Except.error e)

/-- One desired notifier instance: the declared uid (tfState of part_000
line 169; the UID entry is always present in the declared block) paired with
the backend-ready object. -/
structure StatePair where
  uid : String
  gfState : EmbeddedContactPoint
deriving DecidableEq, Repr

/-- Result of the apply loop: the instances with recorded UIDs, the
processed UID set, the mutated backend, the issued calls, and the first
fatal error if any (the loop stops there, keeping earlier effects). -/
structure ApplyOut where
  pairs : List StatePair
  processed : List String
  st : BackendState
  trace : List Call
  err : Option APIError
deriving Repr

/-- The apply loop of updateContactPoint, part_000 lines 165-198: an
instance with a non-empty UID is updated in place, one without is created
under the retry policy, and the resulting UID is recorded on the instance
and in the processed set. -/
def applyLoop (orgID fuel : Nat) (script : Nat → Nat → Option APIError) :
    Nat → List StatePair → BackendState → ApplyOut
  | _, [], st => ⟨[], [], st, [], none⟩
  | i, p :: rest, st =>
    if p.uid ≠ "" then
      let st2 := backendPut st p.uid p.gfState
      let out := applyLoop orgID fuel script (i + 1) rest st2
      ⟨p :: out.pairs, p.uid :: out.processed, out.st,
       Call.update p.uid :: out.trace, out.err⟩
    else
      let r := retryCreate orgID (script i) p.gfState 0 fuel st
      match r.2.2 with
      | Except.error e => ⟨p :: rest, [], r.1, r.2.1, some e⟩
      | Except.ok uid =>
        let out := applyLoop orgID fuel script (i + 1) rest r.1
        ⟨{ p with uid := uid } :: out.pairs, uid :: out.processed, out.st,
         r.2.1 ++ out.trace, out.err⟩

/-- The deletion sweep of updateContactPoint, part_000 lines 200-207: every
record of the fetched current set whose UID was not processed is deleted. -/
def deletePhase (current : List Record) (processed : List String)
    (st : BackendState) : BackendState × List Call :=
  current.foldl
    (fun acc p =>
      if p.uid ∈ processed then acc
      else (backendDelete acc.1 p.uid, acc.2 ++ [Call.delete p.uid]))
    (st, [])

/-- Failures of the whole reconciliation. -/
inductive UCErr where
  | api (e : APIError)
  | warnMissing
  | packFailed (m : String)
deriving DecidableEq, Repr

/-- The by-name read-back of readContactPoint, part_000 lines 93-102 and
134-144, against the modelled backend.  An empty result would fall to the
legacy-UID branch (readLegacyImport) and end in a missing-resource outcome;
it is folded into the warnMissing constructor here and never reached by the
theorems below. -/
def readByName {π : Type} (ns : List (Notifier π)) (orgID : Nat) (name : String)
    (st : BackendState) : Except UCErr (ReadOutcome π) :=
  let points := backendGetByName st name
  match points with
  | [] => Except.error UCErr.warnMissing
  | p0 :: _ =>
    match packContactPoints ns points with
    | Except.error m => Except.error (UCErr.packFailed m)
    | Except.ok tree => Except.ok ⟨orgID, p0.name, tree⟩

/-- Outcome of one whole updateContactPoint run. -/
structure ReconcileOut (π : Type) where
  st : BackendState
  trace : List Call
  result : Except UCErr (ReadOutcome π × List StatePair)

/-- updateContactPoint, part_000 lines 147-211, against the modelled
backend: fetch the current set (skipped for a new resource), apply every
desired instance, delete every unprocessed current record, and read back by
name. -/
def updateContactPoint {π : Type} (ns : List (Notifier π)) (orgID : Nat)
    (name : String) (fuel : Nat) (script : Nat → Nat → Option APIError)
    (ps : List StatePair) (isNew : Bool) (st0 : BackendState) : ReconcileOut π :=
  let current := if isNew then [] else backendGetByName st0 name
  let out := applyLoop orgID fuel script 0 ps st0
  match out.err with
  | some e => ⟨out.st, out.trace, Except.error (UCErr.api e)⟩
  | none =>
    let d := deletePhase current out.processed out.st
    let trace := out.trace ++ d.2
    match readByName ns orgID name d.1 with
    | Except.error e => ⟨d.1, trace, Except.error e⟩
    | Except.ok ro => ⟨d.1, trace, Except.ok (ro, out.pairs)⟩

/-! ## Specification-side helper definitions used by the theorems -/

/-- The records of the fetched payload whose UID is among the expected
keys, in payload order: exactly the records the resolution loop collects. -/
def matchedRecords (keys : List String) (payload : List Record) : List Record :=
  payload.filter (fun r => decide (r.uid ∈ keys))

/-- The records a run of successful creates appends, with their fresh UIDs. -/
def createdRecords (n0 : Nat) : List StatePair → List Record
  | [] => []
  | p :: rest => mkRecord (freshUID n0) p.gfState :: createdRecords (n0 + 1) rest

/-- The instances after a fully successful apply pass: a kept UID stays, an
empty UID is replaced by the fresh server-assigned one. -/
def specPairs (n0 : Nat) : List StatePair → List StatePair
  | [] => []
  | p :: rest =>
    if p.uid = "" then { p with uid := freshUID n0 } :: specPairs (n0 + 1) rest
    else p :: specPairs n0 rest

/-- The calls a fully successful apply pass issues, in order. -/
def specTrace : List StatePair → List Call
  | [] => []
  | p :: rest =>
    if p.uid = "" then Call.create :: specTrace rest
    else Call.update p.uid :: specTrace rest

/-! ## Theorems: month-range diff suppression (C9) -/

/-- C9: the month-range diff-suppression function judges "january:march" and
"1:3" equivalent, judges "january:march" and "1:4" not equivalent, for every
surrounding schema key and resource state, and in general judges two values
equivalent exactly when they agree after every full month name is replaced by
its month number. -/
theorem suppressMonthDiff_spec :
    (∀ (σ : Type) (k : String) (d : σ),
      suppressMonthDiff k "january:march" "1:3" d = true) ∧
    (∀ (σ : Type) (k : String) (d : σ),
      suppressMonthDiff k "january:march" "1:4" d = false) ∧
    (∀ (σ : Type) (k : String) (d : σ) (o n : String),
      suppressMonthDiff k o n d = true ↔ monthNormalize o = monthNormalize n) := by
  refine ⟨fun σ k d => by rfl, fun σ k d => by rfl, fun σ k d o n => ?_⟩
  simp [suppressMonthDiff, monthNormalize]

/-! ## Theorems: settings normalization (C5) -/

/-- C5 counterexample: the claim asserts that a key whose remote value is the
empty string is never present in the packed read-path settings output, but
packSettings preserves every key, rendering the empty string as its quoted
form; the key k is present in the packed output here. -/
theorem packSettings_keeps_empty_string_key :
    List.lookup "k" (packSettings [("k", SVal.str "")]) = some "\x22\x22" := by
  rfl

/-- C5 (amended): the write-path normalization (unpackPointConfig) removes
exactly the settings keys whose value is the empty string before the payload
is sent, while the read-path packSettings stringifies every value and
preserves every key, including a key whose remote value is the empty
string. -/
theorem settingsNormalization_amended :
    (∀ (pt : EmbeddedContactPoint) (k : String) (v : SVal),
      ((k, v) ∈ (unpackPointConfig pt).settings ↔
        (k, v) ∈ pt.settings ∧ v ≠ SVal.str "")) ∧
    (∀ (s : List (String × SVal)) (k w : String),
      ((k, w) ∈ packSettings s ↔ ∃ v, (k, v) ∈ s ∧ w = goSharp v)) := by
  constructor
  · intro pt k v
    simp [unpackPointConfig, List.mem_filter]
  · intro s k w
    constructor
    · intro h
      rcases List.mem_map.mp h with ⟨⟨k0, v0⟩, hmem, heq⟩
      rcases Prod.mk.injEq .. ▸ heq with ⟨hk, hv⟩
      exact ⟨v0, hk ▸ hmem, hv.symm⟩
    · rintro ⟨v, hmem, rfl⟩
      exact List.mem_map.mpr ⟨(k, v), hmem, rfl⟩

/-! ## Theorems: secure-field carry-forward (C4) -/

theorem lookup_mput_self {α : Type} (m : List (String × α)) (k : String) (v : α) :
    List.lookup k (mput m k v) = some v := by
  induction m with
  | nil => simp [mput, List.lookup]
  | cons hd tl ih =>
    by_cases h : hd.1 = k
    · simp [mput, h, List.lookup]
    · simp only [mput]
      rw [if_neg h]
      simpa [List.lookup, show (k == hd.1) = false by simp [Ne.symm h]] using ih

theorem lookup_mput_other {α : Type} (m : List (String × α)) (k k2 : String) (v : α)
    (h : k ≠ k2) : List.lookup k (mput m k2 v) = List.lookup k m := by
  induction m with
  | nil => simp [mput, List.lookup, show (k == k2) = false by simp [h]]
  | cons hd tl ih =>
    by_cases h0 : hd.1 = k2
    · simp only [mput]
      rw [if_pos h0]
      simp [List.lookup, show (k == k2) = false by simp [h],
        show (k == hd.1) = (k == k2) by rw [h0]]
    · simp only [mput]
      rw [if_neg h0]
      simp only [List.lookup]
      cases hbe : (k == hd.1) <;> simp [hbe, ih]

theorem packSecureFields_cons (tf st : List (String × String))
    (sf : List String) (s : String) :
    packSecureFields tf st (s :: sf) =
      packSecureFields
        (match List.lookup s st with
         | some v => mput tf s v
         | none => tf) st sf := by
  rfl

theorem packSecureFields_lookup_notmem (tf st : List (String × String))
    (sf : List String) (k : String) (h : k ∉ sf) :
    List.lookup k (packSecureFields tf st sf) = List.lookup k tf := by
  induction sf generalizing tf with
  | nil => rfl
  | cons s rest ih =>
    have hs : s ≠ k := fun he => h (he ▸ List.mem_cons_self s rest)
    have hr : k ∉ rest := fun hm => h (List.mem_cons_of_mem s hm)
    rw [packSecureFields_cons]
    rcases hlk : List.lookup s st with _ | v
    · simp only [hlk]
      exact ih tf hr
    · simp only [hlk]
      rw [ih (mput tf s v) hr, lookup_mput_other tf k s v (Ne.symm hs)]

theorem packSecureFields_lookup_mem (tf st : List (String × String))
    (sf : List String) (k : String) (h : k ∈ sf) :
    List.lookup k (packSecureFields tf st sf) =
      (match List.lookup k st with
       | some v => some v
       | none => List.lookup k tf) := by
  induction sf generalizing tf with
  | nil => exact absurd h (List.not_mem_nil k)
  | cons s rest ih =>
    rw [packSecureFields_cons]
    rcases hlk : List.lookup s st with _ | v
    · simp only [hlk]
      by_cases hr : k ∈ rest
      · exact ih tf hr
      · have hk : s = k := by
          rcases List.mem_cons.mp h with h1 | h1
          · exact h1.symm
          · exact absurd h1 hr
        subst hk
        rw [packSecureFields_lookup_notmem tf st rest s hr, hlk]
    · simp only [hlk]
      by_cases hks : s = k
      · subst hks
        by_cases hr : s ∈ rest
        · rw [ih (mput tf s v) hr, hlk]
        · rw [packSecureFields_lookup_notmem (mput tf s v) st rest s hr,
            lookup_mput_self tf s v, hlk]
      · have hr : k ∈ rest := by
          rcases List.mem_cons.mp h with h1 | h1
          · exact absurd h1.symm hks
          · exact h1
        rw [ih (mput tf s v) hr]
        rcases hk2 : List.lookup k st with _ | w
        · simp only [hk2]
          exact lookup_mput_other tf k s v (Ne.symm hks)
        · simp only [hk2]

/-- C4: a secure field is never taken from the backend record (which
packSecureFields does not receive): for every secure field name its packed
value is the one found in the previously-declared state block, which is
selected by UID-keyed lookup into the declared instances (first match), and
the declared-state lookup falls back to the empty block when the field is
unset or no declared instance carries the record's UID, in which case an
absent secure field stays absent in the packed output.  Non-secure keys are
left untouched. -/
theorem packSecureFields_spec :
    (∀ (tf st : List (String × String)) (sf : List String) (k : String),
      k ∈ sf →
        List.lookup k (packSecureFields tf st sf) =
          (match List.lookup k st with
           | some v => some v
           | none => List.lookup k tf)) ∧
    (∀ (tf st : List (String × String)) (sf : List String) (k : String),
      k ∉ sf →
        List.lookup k (packSecureFields tf st sf) = List.lookup k tf) ∧
    (∀ uid : String, getNotifierConfigFromStateWithUID none uid = []) ∧
    (∀ (pts : List (List (String × String))) (uid : String),
      (∀ c ∈ pts, ¬ List.lookup "uid" c = some uid) →
        getNotifierConfigFromStateWithUID (some pts) uid = []) ∧
    (∀ (pts : List (List (String × String))) (uid : String)
        (c : List (String × String)),
      pts.find? (fun cfg => List.lookup "uid" cfg == some uid) = some c →
        getNotifierConfigFromStateWithUID (some pts) uid = c) ∧
    (∀ (pts : Option (List (List (String × String)))) (uid : String)
        (tf : List (String × String)) (sf : List String) (k : String),
      k ∈ sf → List.lookup k tf = none →
        getNotifierConfigFromStateWithUID pts uid = [] →
        List.lookup k
          (packSecureFields tf (getNotifierConfigFromStateWithUID pts uid) sf) =
          none) := by
  refine ⟨packSecureFields_lookup_mem, packSecureFields_lookup_notmem,
    fun uid => rfl, ?_, ?_, ?_⟩
  · intro pts uid h
    have hf : pts.find? (fun cfg => List.lookup "uid" cfg == some uid) = none := by
      rw [List.find?_eq_none]
      intro c hc
      simpa using h c hc
    simp [getNotifierConfigFromStateWithUID, hf]
  · intro pts uid c hf
    simp [getNotifierConfigFromStateWithUID, hf]
  · intro pts uid tf sf k hmem htf hempty
    rw [hempty, packSecureFields_lookup_mem tf [] sf k hmem]
    simpa using htf

/-- Closed instantiation of packSecureFields_spec: the secure field token is
carried forward from the declared block matching UID u1, and is absent when
no declared instance matches. -/
theorem packSecureFields_spec_witness :
    List.lookup "token"
        (packSecureFields [("url", "https://x")]
          (getNotifierConfigFromStateWithUID
            (some [[("uid", "u1"), ("token", "sec")]]) "u1")
          ["token"]) = some "sec" ∧
    List.lookup "token"
        (packSecureFields []
          (getNotifierConfigFromStateWithUID
            (some [[("uid", "u1"), ("token", "sec")]]) "u2")
          ["token"]) = none := by
  constructor
  · have h := packSecureFields_spec.1 [("url", "https://x")]
      (getNotifierConfigFromStateWithUID
        (some [[("uid", "u1"), ("token", "sec")]]) "u1")
      ["token"] "token" (by decide)
    simpa using h
  · have h := packSecureFields_spec.2.2.2.2.2
      (some [[("uid", "u1"), ("token", "sec")]]) "u2" [] ["token"] "token"
      (by decide) (by rfl) (by rfl)
    simpa using h

/-! ## Theorems: not-found routing (C8) -/

/-- C8 counterexample: the claim asserts that on delete paths a backend
not-found is surfaced rather than treated as success, but the mute-timing
delete path routes the delete-call outcome through CheckReadError, which
turns a not-found into the soft resource-missing warning: the operation ends
as a success with a warning, not as an error. -/
theorem deleteMuteTiming_notFound_warning :
    deleteMuteTiming (some ApiError8.notFound) = Diag.warnMissing "mute timing" := by
  rfl

/-- C8 (amended): a not-found is treated as empty state on the fetch-current
step; on the update paths and on the contact-point delete call every backend
failure, not-found included, is surfaced as a fatal error; the mute-timing
delete path instead routes not-found through the read-path handler,
producing the soft resource-missing warning (a success with a warning)
rather than an error. -/
theorem notFound_routing_amended :
    (∀ e : ApiError8, updateMuteTimingPutDiag (some e) = fromErr e) ∧
    (updateMuteTimingPutDiag (some ApiError8.notFound) = Diag.fatal "not found") ∧
    (∀ e : ApiError8, putContactPointDiag (some e) = fromErr e) ∧
    (putContactPointDiag (some ApiError8.notFound) = Diag.fatal "not found") ∧
    (∀ e : ApiError8, deleteContactPointDelDiag (some e) = fromErr e) ∧
    (deleteContactPointDelDiag (some ApiError8.notFound) = Diag.fatal "not found") ∧
    (deleteMuteTiming (some ApiError8.notFound) = Diag.warnMissing "mute timing") ∧
    (∀ m : String, deleteMuteTiming (some (ApiError8.other m)) = Diag.fatal m) ∧
    (fetchCurrentPoints (Except.error ApiError8.notFound) = Except.ok []) ∧
    (∀ m : String,
      fetchCurrentPoints (Except.error (ApiError8.other m)) =
        Except.error (Diag.fatal m)) := by
  refine ⟨fun e => rfl, rfl, fun e => rfl, rfl, fun e => rfl, rfl, rfl,
    fun m => rfl, rfl, fun m => rfl⟩

/-! ## Theorems: mute-timing interval round trip (C10) -/

theorem unpackTimeRange_packTimeRange (t : TimeIntervalRange) :
    unpackTimeRange (packTimeRange t) = t := rfl

theorem map_unpack_pack (ts : List TimeIntervalRange) :
    (ts.map packTimeRange).map unpackTimeRange = ts := by
  induction ts with
  | nil => rfl
  | cons h t ih => simp [unpackTimeRange_packTimeRange, ih]

theorem map_unpack_pack_comp (ts : List TimeIntervalRange) :
    List.map (unpackTimeRange ∘ packTimeRange) ts = ts := by
  rw [← List.map_map]
  exact map_unpack_pack ts

theorem unpackInterval_norm_packInterval (ti : TimeInterval) :
    unpackInterval (tfNormalizeInterval (packInterval ti)) = some ti := by
  rcases ti with ⟨t, w, d, m, y, loc⟩
  by_cases hloc : loc = "" <;>
    rcases t with _ | ts <;> rcases w with _ | ws <;> rcases d with _ | ds <;>
    rcases m with _ | ms <;> rcases y with _ | ys <;>
    simp [packInterval, tfNormalizeInterval, tfNormalizeVal, unpackInterval,
      unpackTimesVal, unpackStringsVal, unpackLocationVal, hloc,
      map_unpack_pack, map_unpack_pack_comp, List.lookup]

theorem unpackInterval_packInterval_emptyTimes (ti : TimeInterval)
    (h : ti.times = none ∨ ti.times = some []) :
    unpackInterval (packInterval ti) = some ti := by
  rcases ti with ⟨t, w, d, m, y, loc⟩
  rcases h with h | h <;> simp only at h <;> subst h <;>
    by_cases hloc : loc = "" <;>
    rcases w with _ | ws <;> rcases d with _ | ds <;>
    rcases m with _ | ms <;> rcases y with _ | ys <;>
    simp [packInterval, unpackInterval, unpackTimesVal, unpackStringsVal,
      unpackLocationVal, hloc, List.lookup]

/-- C10 counterexample: the direct composition fails on any interval with a
non-empty times list, because packTimeRange emits a string-valued block while
unpackTimeRange asserts an interface-valued one: the unpack panics (none)
instead of returning the original list. -/
theorem intervals_roundtrip_direct_fails :
    unpackIntervals (packIntervals
      (some [⟨some [⟨"10:00", "11:00"⟩], none, none, none, none, ""⟩])) =
      none := by
  decide

/-- C10 (amended): unpackIntervals inverts packIntervals — preserving nil
lists, nil sub-fields and the empty location — for every input whose
intervals all have an absent or empty times list; and for every input
whatsoever once the packed tree has passed through the configuration
runtime's re-presentation of nested blocks (tfNormalizeInterval).  With a
non-empty times list the direct composition instead fails on the
string-block type assertion (see the counterexample). -/
theorem intervals_roundtrip_amended :
    (∀ ts : Option (List TimeInterval),
      (∀ ti ∈ ts.getD [], ti.times = none ∨ ti.times = some []) →
        unpackIntervals (packIntervals ts) = some ts) ∧
    (∀ ts : Option (List TimeInterval),
      unpackIntervals
        ((packIntervals ts).map (fun l => l.map tfNormalizeInterval)) =
        some ts) := by
  constructor
  · intro ts h
    rcases ts with _ | l
    · rfl
    · simp only [Option.getD] at h
      have : unpackIntervalsList (l.map packInterval) = some l := by
        induction l with
        | nil => rfl
        | cons ti rest ih =>
          have h1 := unpackInterval_packInterval_emptyTimes ti
            (h ti (List.mem_cons_self ti rest))
          have h2 := ih (fun x hx => h x (List.mem_cons_of_mem ti hx))
          simp [unpackIntervalsList, h1, h2]
      simp [packIntervals, unpackIntervals, this]
  · intro ts
    rcases ts with _ | l
    · rfl
    · have : unpackIntervalsList
          (l.map (fun ti => tfNormalizeInterval (packInterval ti))) = some l := by
        induction l with
        | nil => rfl
        | cons ti rest ih =>
          simp [unpackIntervalsList, unpackInterval_norm_packInterval, ih]
      simp [packIntervals, unpackIntervals, List.map_map, Function.comp_def, this]

/-- Closed instantiation of intervals_roundtrip_amended: a round trip through
pack and unpack on an interval with an empty times list, absent months and
years, and a set location. -/
theorem intervals_roundtrip_amended_witness :
    unpackIntervals (packIntervals
      (some [⟨some [], some ["monday:tuesday"], some ["1:3"], none, none,
        "America/New_York"⟩])) =
      some (some [⟨some [], some ["monday:tuesday"], some ["1:3"], none, none,
        "America/New_York"⟩]) := by
  exact intervals_roundtrip_amended.1
    (some [⟨some [], some ["monday:tuesday"], some ["1:3"], none, none,
      "America/New_York"⟩]) (by decide)

/-! ## Theorems: read-path packing dispatch (C6) -/

theorem packOneRecord_length {π : Type} :
    ∀ (ns : List (Notifier π)) (acc : List (List π)) (p : Record)
      (out : List (List π)),
      acc.length = ns.length → packOneRecord ns acc p = .ok out →
      out.length = ns.length
  | [], acc, p, out, hlen, hok => by
    simp only [packOneRecord] at hok
    cases hok
    exact hlen
  | n :: ns, acc, p, out, hlen, hok => by
    rcases acc with _ | ⟨a, acc2⟩
    · simp at hlen
    · simp only [packOneRecord, List.headD, List.tail] at hok
      by_cases hc : (p.type == n.meta.typeStr) = true
      · rw [if_pos hc] at hok
        rcases hpk : n.pack p with e | packed
        · rw [hpk] at hok; cases hok
        · rw [hpk] at hok
          rcases hrec : packOneRecord ns acc2 p with e | rest2
          · rw [hrec] at hok; cases hok
          · rw [hrec] at hok
            cases hok
            have := packOneRecord_length ns acc2 p rest2 (by simpa using hlen) hrec
            simp [this]
      · rw [if_neg hc] at hok
        rcases hrec : packOneRecord ns acc2 p with e | rest2
        · rw [hrec] at hok; cases hok
        · rw [hrec] at hok
          cases hok
          have := packOneRecord_length ns acc2 p rest2 (by simpa using hlen) hrec
          simp [this]

theorem packOneRecord_unmatched {π : Type} :
    ∀ (ns : List (Notifier π)) (acc : List (List π)) (p : Record),
      acc.length = ns.length →
      (ns.any (fun n => p.type == n.meta.typeStr)) = false →
      packOneRecord ns acc p = .ok acc
  | [], acc, p, hlen, hany => by
    rfl
  | n :: ns, acc, p, hlen, hany => by
    rcases acc with _ | ⟨a, acc2⟩
    · simp at hlen
    · simp only [List.any_cons, Bool.or_eq_false_iff] at hany
      have hrec := packOneRecord_unmatched ns acc2 p (by simpa using hlen) hany.2
      simp only [packOneRecord, List.headD, List.tail]
      rw [if_neg (by simp [hany.1]), hrec]

theorem packCPAux_skip {π : Type} (ns : List (Notifier π)) :
    ∀ (ps : List Record) (acc : List (List π)), acc.length = ns.length →
      packCPAux ns ps acc =
        packCPAux ns
          (ps.filter (fun p => ns.any (fun n => p.type == n.meta.typeStr))) acc
  | [], acc, hlen => rfl
  | p :: ps, acc, hlen => by
    by_cases hr : (ns.any (fun n => p.type == n.meta.typeStr)) = true
    · rw [List.filter_cons, if_pos hr]
      simp only [packCPAux]
      rcases hpo : packOneRecord ns acc p with e | acc2
      · rfl
      · exact packCPAux_skip ns ps acc2 (packOneRecord_length ns acc p acc2 hlen hpo)
    · rw [List.filter_cons, if_neg hr]
      simp only [packCPAux]
      rw [packOneRecord_unmatched ns acc p hlen (Bool.eq_false_iff.mpr hr)]
      exact packCPAux_skip ns ps acc hlen

theorem packOneRecord_model (metas : List NotifierMeta)
    (g : NotifierMeta → List PackedPoint) (p : Record) :
    packOneRecord (modelRegistry metas) (metas.map g) p =
      .ok (metas.map (fun m =>
        g m ++ (if p.type == m.typeStr then [modelPack p] else []))) := by
  induction metas with
  | nil => rfl
  | cons m ms ih =>
    simp only [modelRegistry, List.map_cons] at ih ⊢
    by_cases hc : (p.type == m.typeStr) = true
    · simp only [packOneRecord, List.headD, List.tail]
      rw [if_pos hc, ih, if_pos hc]
    · simp only [packOneRecord, List.headD, List.tail]
      rw [if_neg hc, ih, if_neg hc, List.append_nil]

theorem packCPAux_model (metas : List NotifierMeta) :
    ∀ (ps : List Record) (g : NotifierMeta → List PackedPoint),
      packCPAux (modelRegistry metas) ps (metas.map g) =
        .ok (metas.map (fun m =>
          g m ++ (ps.filter (fun p => p.type == m.typeStr)).map modelPack))
  | [], g => by
    simp [packCPAux]
  | p :: ps, g => by
    simp only [packCPAux]
    rw [packOneRecord_model metas g p]
    show packCPAux (modelRegistry metas) ps
      (metas.map (fun m =>
        g m ++ (if p.type == m.typeStr then [modelPack p] else []))) = _
    rw [packCPAux_model metas ps
      (fun m => g m ++ (if p.type == m.typeStr then [modelPack p] else []))]
    congr 1
    apply List.map_congr_left
    intro m _
    rw [List.filter_cons]
    by_cases hc : (p.type == m.typeStr) = true
    · simp [hc]
    · simp [hc]

theorem packContactPoints_model (metas : List NotifierMeta) (ps : List Record) :
    packContactPoints (modelRegistry metas) ps =
      .ok (metas.map (fun m =>
        (ps.filter (fun p => p.type == m.typeStr)).map modelPack)) := by
  show packCPAux (modelRegistry metas) ps
    ((modelRegistry metas).map (fun _ => [])) = _
  have hacc : (modelRegistry metas).map (fun _ => ([] : List PackedPoint)) =
      metas.map (fun _ => []) := by
    simp [modelRegistry, List.map_map, Function.comp_def]
  rw [hacc, packCPAux_model metas ps (fun _ => [])]
  simp

/-- C6: a backend record whose type tag matches no registry codec is skipped
entirely — removing all unrecognized records leaves the packing result,
success or failure, unchanged, so such records appear in no kind's packed
list and cause no failure — and over a registry of model codecs the packed
output is exactly, for each kind in registry order, the packed forms of the
records carrying that kind's type tag, in record order. -/
theorem packContactPoints_spec :
    (∀ (π : Type) (ns : List (Notifier π)) (ps : List Record),
      packContactPoints ns ps =
        packContactPoints ns
          (ps.filter (fun p => ns.any (fun n => p.type == n.meta.typeStr)))) ∧
    (∀ (metas : List NotifierMeta) (ps : List Record),
      packContactPoints (modelRegistry metas) ps =
        .ok (metas.map (fun m =>
          (ps.filter (fun p => p.type == m.typeStr)).map modelPack))) := by
  constructor
  · intro π ns ps
    exact packCPAux_skip ns ps (ns.map fun _ => []) (by simp)
  · exact packContactPoints_model

/-! ## Theorems: legacy UID-list import (C7) -/

theorem splitSemiAux_ne_nil : ∀ (cs acc : List Char), splitSemiAux cs acc ≠ []
  | [], acc => by simp [splitSemiAux]
  | c :: cs, acc => by
    simp only [splitSemiAux]
    by_cases hc : c = ';'
    · rw [if_pos hc]
      simp
    · rw [if_neg hc]
      exact splitSemiAux_ne_nil cs (c :: acc)

theorem splitSemi_ne_nil (s : String) : splitSemi s ≠ [] :=
  splitSemiAux_ne_nil s.data []

theorem uidKeys_aux_ne_nil :
    ∀ (us ks : List String), ks ≠ [] →
      us.foldl (fun ks u => if u ∈ ks then ks else ks ++ [u]) ks ≠ []
  | [], ks, h => h
  | u :: us, ks, h => by
    simp only [List.foldl_cons]
    by_cases hm : u ∈ ks
    · rw [if_pos hm]
      exact uidKeys_aux_ne_nil us ks h
    · rw [if_neg hm]
      exact uidKeys_aux_ne_nil us (ks ++ [u]) (by simp)

theorem uidKeys_ne_nil (us : List String) (h : us ≠ []) : uidKeys us ≠ [] := by
  rcases us with _ | ⟨u, us⟩
  · exact absurd rfl h
  · show List.foldl _ _ (u :: us) ≠ []
    simp only [List.foldl_cons]
    by_cases hm : u ∈ ([] : List String)
    · simp at hm
    · rw [if_neg hm]
      exact uidKeys_aux_ne_nil us [u] (by simp)

theorem legacyLoop_consistent (keys : List String) :
    ∀ (payload : List Record) (i : Nat) (points : List Record)
      (found : List String),
      (∀ a b : Record,
        a ∈ points ++ matchedRecords keys payload →
        b ∈ points ++ matchedRecords keys payload → a.name = b.name) →
      legacyLoop payload i keys points found =
        .ok (points ++ matchedRecords keys payload,
          found ++ (matchedRecords keys payload).map (fun r => r.uid))
  | [], i, points, found, hcons => by
    simp [legacyLoop, matchedRecords]
  | p :: rest, i, points, found, hcons => by
    by_cases hm : p.uid ∈ keys
    · have hmr : matchedRecords keys (p :: rest) = p :: matchedRecords keys rest := by
        simp [matchedRecords, List.filter_cons, hm]
      rcases points with _ | ⟨q, qs⟩
      · simp only [legacyLoop, if_pos hm, List.nil_append]
        rw [if_neg (by simp)]
        have hrec := legacyLoop_consistent keys rest (i + 1) [p] (found ++ [p.uid])
          (by
            intro a b ha hb
            apply hcons a b
            · rw [List.nil_append, hmr]
              simpa using ha
            · rw [List.nil_append, hmr]
              simpa using hb)
        rw [hrec, hmr]
        simp
      · have hpq : p.name = q.name := by
          apply hcons p q
          · rw [hmr]
            simp
          · simp
        simp only [legacyLoop, if_pos hm, List.cons_append]
        rw [if_neg (by simp [hpq])]
        have hrec := legacyLoop_consistent keys rest (i + 1) (q :: (qs ++ [p]))
          (found ++ [p.uid])
          (by
            intro a b ha hb
            apply hcons a b <;> rw [hmr] <;>
              simp only [List.cons_append, List.mem_cons, List.mem_append,
                List.mem_singleton] at ha hb ⊢ <;> tauto)
        rw [hrec, hmr]
        simp
    · have hmr2 : matchedRecords keys (p :: rest) = matchedRecords keys rest := by
        simp [matchedRecords, List.filter_cons, hm]
      simp only [legacyLoop, if_neg hm]
      rw [legacyLoop_consistent keys rest (i + 1) points found
        (by rw [hmr2] at hcons; exact hcons), hmr2]

theorem legacyLoop_mismatch (keys : List String) :
    ∀ (payload : List Record) (i : Nat) (q : Record) (qs : List Record)
      (found : List String), 1 ≤ i →
      (∃ r, r ∈ payload ∧ r.uid ∈ keys ∧ r.name ≠ q.name) →
      ∃ b, b ∈ payload ∧ b.uid ∈ keys ∧ b.name ≠ q.name ∧
        legacyLoop payload i keys (q :: qs) found =
          .error (ReadErr.nameMismatch b.uid b.name q.uid q.name)
  | [], i, q, qs, found, hi, hex => by
    rcases hex with ⟨r, hr, _, _⟩
    exact absurd hr (List.not_mem_nil r)
  | p :: rest, i, q, qs, found, hi, hex => by
    by_cases hm : p.uid ∈ keys
    · by_cases hname : p.name = q.name
      · rcases hex with ⟨r, hr, hrk, hrn⟩
        have hrest : r ∈ rest := by
          rcases List.mem_cons.mp hr with h1 | h1
          · exact absurd (h1 ▸ hname) hrn
          · exact h1
        rcases legacyLoop_mismatch keys rest (i + 1) q (qs ++ [p])
          (found ++ [p.uid]) (by omega) ⟨r, hrest, hrk, hrn⟩ with
          ⟨b, hb1, hb2, hb3, hb4⟩
        refine ⟨b, List.mem_cons_of_mem p hb1, hb2, hb3, ?_⟩
        simp only [legacyLoop, if_pos hm, List.cons_append]
        rw [if_neg (by simp [hname]), hb4]
      · refine ⟨p, List.mem_cons_self p rest, hm, hname, ?_⟩
        simp only [legacyLoop, if_pos hm, List.cons_append]
        rw [if_pos ⟨by omega, hname⟩]
    · rcases hex with ⟨r, hr, hrk, hrn⟩
      have hrest : r ∈ rest := by
        rcases List.mem_cons.mp hr with h1 | h1
        · exact absurd (h1 ▸ hrk) hm
        · exact h1
      rcases legacyLoop_mismatch keys rest (i + 1) q qs found (by omega)
        ⟨r, hrest, hrk, hrn⟩ with ⟨b, hb1, hb2, hb3, hb4⟩
      refine ⟨b, List.mem_cons_of_mem p hb1, hb2, hb3, ?_⟩
      simp only [legacyLoop, if_neg hm]
      exact hb4

theorem legacyLoop_mismatch_start (keys : List String) :
    ∀ (payload : List Record) (i : Nat) (found : List String),
      (∃ aR, aR ∈ payload ∧ aR.uid ∈ keys ∧
        ∃ bR, bR ∈ payload ∧ bR.uid ∈ keys ∧ aR.name ≠ bR.name) →
      ∃ a b : Record, a ∈ payload ∧ b ∈ payload ∧ a.uid ∈ keys ∧
        b.uid ∈ keys ∧ b.name ≠ a.name ∧
        legacyLoop payload i keys [] found =
          .error (ReadErr.nameMismatch b.uid b.name a.uid a.name)
  | [], i, found, hex => by
    rcases hex with ⟨aR, ha, _, _⟩
    exact absurd ha (List.not_mem_nil aR)
  | p :: rest, i, found, hex => by
    by_cases hm : p.uid ∈ keys
    · have hdiff : ∃ r, r ∈ rest ∧ r.uid ∈ keys ∧ r.name ≠ p.name := by
        rcases hex with ⟨aR, haMem, haK, bR, hbMem, hbK, hab⟩
        by_cases hA : aR.name = p.name
        · have hbn : bR.name ≠ p.name := fun hc => hab (hA.trans hc.symm)
          have hbr : bR ∈ rest := by
            rcases List.mem_cons.mp hbMem with h1 | h1
            · exact absurd (h1 ▸ hbn) (fun hc => hc rfl)
            · exact h1
          exact ⟨bR, hbr, hbK, hbn⟩
        · have har : aR ∈ rest := by
            rcases List.mem_cons.mp haMem with h1 | h1
            · exact absurd (h1 ▸ hA) (fun hc => hc rfl)
            · exact h1
          exact ⟨aR, har, haK, hA⟩
      rcases legacyLoop_mismatch keys rest (i + 1) p [] (found ++ [p.uid])
        (by omega) hdiff with ⟨b, hb1, hb2, hb3, hb4⟩
      refine ⟨p, b, List.mem_cons_self p rest, List.mem_cons_of_mem p hb1,
        hm, hb2, hb3, ?_⟩
      simp only [legacyLoop, if_pos hm, List.nil_append]
      rw [if_neg (by simp), hb4]
    · rcases hex with ⟨aR, haMem, haK, bR, hbMem, hbK, hab⟩
      have har : aR ∈ rest := by
        rcases List.mem_cons.mp haMem with h1 | h1
        · exact absurd (h1 ▸ haK) hm
        · exact h1
      have hbr : bR ∈ rest := by
        rcases List.mem_cons.mp hbMem with h1 | h1
        · exact absurd (h1 ▸ hbK) hm
        · exact h1
      rcases legacyLoop_mismatch_start keys rest (i + 1) found
        ⟨aR, har, haK, bR, hbr, hbK, hab⟩ with ⟨a, b, h1, h2, h3, h4, h5, h6⟩
      refine ⟨a, b, List.mem_cons_of_mem p h1, List.mem_cons_of_mem p h2,
        h3, h4, h5, ?_⟩
      simp only [legacyLoop, if_neg hm]
      exact h6

theorem mem_matchedRecords {keys : List String} {payload : List Record}
    {p : Record} :
    p ∈ matchedRecords keys payload ↔ p ∈ payload ∧ p.uid ∈ keys := by
  simp [matchedRecords, List.mem_filter]

/-- C7: on the legacy semicolon-joined-UID import identifier, (1) when every
listed UID resolves to a fetched record and all records carrying a listed UID
share one name N, the read succeeds with the identifier parts (org, N) and
the packed resolved records; (2) when two records carrying listed UIDs have
different names, the read fails with a contract-violation error naming both
UIDs and both names; (3) when the resolved records agree on their name but
some listed UID resolves to no fetched record, the read fails naming a
missing UID. -/
theorem readLegacyImport_spec :
    (∀ (π : Type) (ns : List (Notifier π)) (orgID : Nat) (idStr : String)
      (payload : List Record) (N : String) (tree : List (List π)),
      (∀ u ∈ uidKeys (splitSemi idStr), ∃ p, p ∈ payload ∧ p.uid = u) →
      (∀ p ∈ payload, p.uid ∈ uidKeys (splitSemi idStr) → p.name = N) →
      packContactPoints ns
        (matchedRecords (uidKeys (splitSemi idStr)) payload) = .ok tree →
      readLegacyImport ns orgID idStr payload = .ok ⟨orgID, N, tree⟩) ∧
    (∀ (π : Type) (ns : List (Notifier π)) (orgID : Nat) (idStr : String)
      (payload : List Record),
      (∃ aR, aR ∈ payload ∧ aR.uid ∈ uidKeys (splitSemi idStr) ∧
        ∃ bR, bR ∈ payload ∧ bR.uid ∈ uidKeys (splitSemi idStr) ∧
          aR.name ≠ bR.name) →
      ∃ a b : Record, a ∈ payload ∧ b ∈ payload ∧
        a.uid ∈ uidKeys (splitSemi idStr) ∧ b.uid ∈ uidKeys (splitSemi idStr) ∧
        b.name ≠ a.name ∧
        readLegacyImport ns orgID idStr payload =
          .error (ReadErr.nameMismatch b.uid b.name a.uid a.name)) ∧
    (∀ (π : Type) (ns : List (Notifier π)) (orgID : Nat) (idStr : String)
      (payload : List Record),
      (∀ p ∈ payload, ∀ q ∈ payload,
        p.uid ∈ uidKeys (splitSemi idStr) → q.uid ∈ uidKeys (splitSemi idStr) →
        p.name = q.name) →
      (∃ u ∈ uidKeys (splitSemi idStr), ∀ p ∈ payload, p.uid ≠ u) →
      ∃ u, u ∈ uidKeys (splitSemi idStr) ∧ (∀ p ∈ payload, p.uid ≠ u) ∧
        readLegacyImport ns orgID idStr payload =
          .error (ReadErr.uidNotFound u)) := by
  refine ⟨?_, ?_, ?_⟩
  · intro π ns orgID idStr payload N tree h1 h2 h3
    set keys := uidKeys (splitSemi idStr) with hkeys
    have hcons : ∀ a b : Record,
        a ∈ ([] : List Record) ++ matchedRecords keys payload →
        b ∈ ([] : List Record) ++ matchedRecords keys payload →
        a.name = b.name := by
      intro a b ha hb
      rw [List.nil_append] at ha hb
      rcases mem_matchedRecords.mp ha with ⟨ha1, ha2⟩
      rcases mem_matchedRecords.mp hb with ⟨hb1, hb2⟩
      rw [h2 a ha1 ha2, h2 b hb1 hb2]
    have hLoop := legacyLoop_consistent keys payload 0 [] [] hcons
    have hfm : firstMissing keys
        (([] : List String) ++ (matchedRecords keys payload).map (fun r => r.uid)) =
        none := by
      rw [List.nil_append, firstMissing, List.find?_eq_none]
      intro u hu
      rcases h1 u hu with ⟨p, hp, hpu⟩
      have hpm : p ∈ matchedRecords keys payload :=
        mem_matchedRecords.mpr ⟨hp, hpu ▸ hu⟩
      have humem : u ∈ (matchedRecords keys payload).map (fun r => r.uid) :=
        List.mem_map.mpr ⟨p, hpm, hpu⟩
      simp [humem]
    have hkne : keys ≠ [] := uidKeys_ne_nil _ (splitSemi_ne_nil idStr)
    rcases List.exists_mem_of_ne_nil keys hkne with ⟨u0, hu0⟩
    rcases h1 u0 hu0 with ⟨p0, hp0, hp0u⟩
    rcases hmt : matchedRecords keys payload with _ | ⟨q0, qrest⟩
    · have : p0 ∈ matchedRecords keys payload :=
        mem_matchedRecords.mpr ⟨hp0, hp0u ▸ hu0⟩
      rw [hmt] at this
      exact absurd this (List.not_mem_nil p0)
    · have hq0 : q0.name = N := by
        have hq0m : q0 ∈ matchedRecords keys payload := by
          rw [hmt]
          exact List.mem_cons_self q0 qrest
        rcases mem_matchedRecords.mp hq0m with ⟨hq1, hq2⟩
        exact h2 q0 hq1 hq2
      rw [hmt] at h3 hLoop
      rw [hmt] at hfm
      simp only [readLegacyImport, ← hkeys]
      rw [hLoop]
      simp only [List.nil_append] at hfm ⊢
      rw [hfm, h3, hq0]
  · intro π ns orgID idStr payload hex
    set keys := uidKeys (splitSemi idStr) with hkeys
    rcases legacyLoop_mismatch_start keys payload 0 [] hex with
      ⟨a, b, h1, h2, h3, h4, h5, h6⟩
    refine ⟨a, b, h1, h2, h3, h4, h5, ?_⟩
    simp only [readLegacyImport, ← hkeys]
    rw [h6]
  · intro π ns orgID idStr payload hshare hmiss
    set keys := uidKeys (splitSemi idStr) with hkeys
    have hcons : ∀ a b : Record,
        a ∈ ([] : List Record) ++ matchedRecords keys payload →
        b ∈ ([] : List Record) ++ matchedRecords keys payload →
        a.name = b.name := by
      intro a b ha hb
      rw [List.nil_append] at ha hb
      rcases mem_matchedRecords.mp ha with ⟨ha1, ha2⟩
      rcases mem_matchedRecords.mp hb with ⟨hb1, hb2⟩
      exact hshare a ha1 b hb1 ha2 hb2
    have hLoop := legacyLoop_consistent keys payload 0 [] [] hcons
    rcases hfind : keys.find?
        (fun u => !(((matchedRecords keys payload).map (fun r => r.uid)).contains u))
      with _ | u2
    · exfalso
      rcases hmiss with ⟨u, hu, hnone⟩
      have := List.find?_eq_none.mp hfind u hu
      simp only [Bool.not_eq_true', Bool.not_eq_false] at this
      have humem : u ∈ (matchedRecords keys payload).map (fun r => r.uid) := by
        simpa using this
      rcases List.mem_map.mp humem with ⟨p, hpm, hpu⟩
      exact hnone p (mem_matchedRecords.mp hpm).1 hpu
    · have hpred := List.find?_some hfind
      have hmem := List.mem_of_find?_eq_some hfind
      have hnotin : u2 ∉ (matchedRecords keys payload).map (fun r => r.uid) := by
        simp only [Bool.not_eq_true'] at hpred
        simpa using hpred
      refine ⟨u2, hmem, ?_, ?_⟩
      · intro p hp heq
        exact hnotin (List.mem_map.mpr
          ⟨p, mem_matchedRecords.mpr ⟨hp, heq ▸ hmem⟩, heq⟩)
      · simp only [readLegacyImport, ← hkeys]
        rw [hLoop]
        simp only [List.nil_append]
        rw [show firstMissing keys
          ((matchedRecords keys payload).map (fun r => r.uid)) = some u2 from hfind]

/-- Closed instantiation of readLegacyImport_spec: two resolving UIDs
sharing a name import successfully; a name clash fails with the
contract-violation error; a dangling UID fails naming it. -/
theorem readLegacyImport_spec_witness :
    readLegacyImport (modelRegistry [⟨"email", "email", []⟩]) 1 "u1;u2"
      [⟨"u1", "N", "email", false, []⟩, ⟨"u2", "N", "email", false, []⟩] =
      .ok ⟨1, "N", [[⟨"u1", false, []⟩, ⟨"u2", false, []⟩]]⟩ ∧
    (∃ a b : Record,
      a ∈ [⟨"u1", "N", "email", false, []⟩, ⟨"u2", "M", "email", false, []⟩] ∧
      b ∈ [⟨"u1", "N", "email", false, []⟩, ⟨"u2", "M", "email", false, []⟩] ∧
      a.uid ∈ uidKeys (splitSemi "u1;u2") ∧ b.uid ∈ uidKeys (splitSemi "u1;u2") ∧
      b.name ≠ a.name ∧
      readLegacyImport (modelRegistry [⟨"email", "email", []⟩]) 1 "u1;u2"
        [⟨"u1", "N", "email", false, []⟩, ⟨"u2", "M", "email", false, []⟩] =
        .error (ReadErr.nameMismatch b.uid b.name a.uid a.name)) ∧
    (∃ u, u ∈ uidKeys (splitSemi "u1;u2") ∧
      (∀ p ∈ [(⟨"u1", "N", "email", false, []⟩ : Record)], p.uid ≠ u) ∧
      readLegacyImport (modelRegistry [⟨"email", "email", []⟩]) 1 "u1;u2"
        [⟨"u1", "N", "email", false, []⟩] =
        .error (ReadErr.uidNotFound u)) := by
  refine ⟨?_, ?_, ?_⟩
  · exact readLegacyImport_spec.1 PackedPoint (modelRegistry [⟨"email", "email", []⟩])
      1 "u1;u2"
      [⟨"u1", "N", "email", false, []⟩, ⟨"u2", "N", "email", false, []⟩] "N"
      [[⟨"u1", false, []⟩, ⟨"u2", false, []⟩]]
      (by decide) (by decide) (by rfl)
  · exact readLegacyImport_spec.2.1 PackedPoint
      (modelRegistry [⟨"email", "email", []⟩]) 1 "u1;u2"
      [⟨"u1", "N", "email", false, []⟩, ⟨"u2", "M", "email", false, []⟩]
      (by decide)
  · exact readLegacyImport_spec.2.2 PackedPoint
      (modelRegistry [⟨"email", "email", []⟩]) 1 "u1;u2"
      [⟨"u1", "N", "email", false, []⟩] (by decide) (by decide)

/-! ## Theorems: reconciliation pipeline (C1, C2, C3) -/

theorem retryCreate_script_none (orgID : Nat) (script : Nat → Option APIError)
    (body : EmbeddedContactPoint) (k fuel : Nat) (st : BackendState)
    (h : script k = none) :
    retryCreate orgID script body k fuel st =
      ((backendPost st body).1, [Call.create],
       Except.ok (backendPost st body).2) := by
  cases fuel <;> simp only [retryCreate, h]

theorem freshUID_ne_empty (n : Nat) : freshUID n ≠ "" := by
  intro h
  have hd := congrArg String.data h
  simp [freshUID, String.data_append] at hd

theorem createdRecords_length (n0 : Nat) (ps : List StatePair) :
    (createdRecords n0 ps).length = ps.length := by
  induction ps generalizing n0 with
  | nil => rfl
  | cons p rest ih => simp [createdRecords, ih]

theorem createdRecords_mem (n0 : Nat) (ps : List StatePair) (r : Record)
    (h : r ∈ createdRecords n0 ps) :
    ∃ m p, p ∈ ps ∧ r = mkRecord (freshUID m) p.gfState := by
  induction ps generalizing n0 with
  | nil => exact absurd h (List.not_mem_nil r)
  | cons p rest ih =>
    rcases List.mem_cons.mp h with h1 | h1
    · exact ⟨n0, p, List.mem_cons_self p rest, h1⟩
    · rcases ih (n0 + 1) h1 with ⟨m, q, hq, he⟩
      exact ⟨m, q, List.mem_cons_of_mem p hq, he⟩

theorem applyLoop_all_new (orgID fuel : Nat) :
    ∀ (ps : List StatePair) (i : Nat) (st : BackendState),
      (∀ p ∈ ps, p.uid = "") →
      applyLoop orgID fuel (fun _ _ => none) i ps st =
        ⟨specPairs st.nextUID ps,
         (specPairs st.nextUID ps).map (fun p => p.uid),
         ⟨st.records ++ createdRecords st.nextUID ps, st.nextUID + ps.length⟩,
         List.replicate ps.length Call.create,
         none⟩
  | [], i, st, h => by
    rcases st with ⟨recs, n⟩
    simp [applyLoop, specPairs, createdRecords]
  | p :: rest, i, st, h => by
    have hp : p.uid = "" := h p (List.mem_cons_self p rest)
    have hrest : ∀ q ∈ rest, q.uid = "" := fun q hq => h q (List.mem_cons_of_mem p hq)
    have hstep : applyLoop orgID fuel (fun _ _ => none) i (p :: rest) st =
        (let out := applyLoop orgID fuel (fun _ _ => none) (i + 1) rest
          ⟨st.records ++ [mkRecord (freshUID st.nextUID) p.gfState], st.nextUID + 1⟩
         ⟨{ p with uid := freshUID st.nextUID } :: out.pairs,
          freshUID st.nextUID :: out.processed, out.st,
          [Call.create] ++ out.trace, out.err⟩) := by
      simp only [applyLoop]
      rw [if_neg (by simp [hp])]
      rw [retryCreate_script_none orgID (fun _ => none) p.gfState 0 fuel st rfl]
      rfl
    rw [hstep, applyLoop_all_new orgID fuel rest (i + 1)
      ⟨st.records ++ [mkRecord (freshUID st.nextUID) p.gfState], st.nextUID + 1⟩
      hrest]
    simp [specPairs, createdRecords, hp, List.replicate_succ, List.append_assoc]
    omega

theorem applyLoop_success (orgID fuel : Nat) :
    ∀ (ps : List StatePair) (i : Nat) (st : BackendState),
      ∃ st2 : BackendState,
        applyLoop orgID fuel (fun _ _ => none) i ps st =
          ⟨specPairs st.nextUID ps,
           (specPairs st.nextUID ps).map (fun p => p.uid),
           st2, specTrace ps, none⟩
  | [], i, st => ⟨st, by simp [applyLoop, specPairs, specTrace]⟩
  | p :: rest, i, st => by
    by_cases hp : p.uid = ""
    · have hstep : applyLoop orgID fuel (fun _ _ => none) i (p :: rest) st =
          (let out := applyLoop orgID fuel (fun _ _ => none) (i + 1) rest
            ⟨st.records ++ [mkRecord (freshUID st.nextUID) p.gfState], st.nextUID + 1⟩
           ⟨{ p with uid := freshUID st.nextUID } :: out.pairs,
            freshUID st.nextUID :: out.processed, out.st,
            [Call.create] ++ out.trace, out.err⟩) := by
        simp only [applyLoop]
        rw [if_neg (by simp [hp])]
        rw [retryCreate_script_none orgID (fun _ => none) p.gfState 0 fuel st rfl]
        rfl
      rcases applyLoop_success orgID fuel rest (i + 1)
        ⟨st.records ++ [mkRecord (freshUID st.nextUID) p.gfState], st.nextUID + 1⟩
        with ⟨st2, hrec⟩
      refine ⟨st2, ?_⟩
      rw [hstep, hrec]
      simp [specPairs, specTrace, hp]
    · have hstep : applyLoop orgID fuel (fun _ _ => none) i (p :: rest) st =
          (let out := applyLoop orgID fuel (fun _ _ => none) (i + 1) rest
            (backendPut st p.uid p.gfState)
           ⟨p :: out.pairs, p.uid :: out.processed, out.st,
            Call.update p.uid :: out.trace, out.err⟩) := by
        simp only [applyLoop]
        rw [if_pos hp]
      rcases applyLoop_success orgID fuel rest (i + 1)
        (backendPut st p.uid p.gfState) with ⟨st2, hrec⟩
      refine ⟨st2, ?_⟩
      rw [hstep, hrec]
      simp [specPairs, specTrace, hp, backendPut]

theorem specTrace_filter_update : ∀ ps : List StatePair,
    (specTrace ps).filter isUpdate =
      (ps.filter (fun p => !(p.uid == ""))).map (fun p => Call.update p.uid)
  | [] => rfl
  | p :: rest => by
    by_cases hp : p.uid = "" <;>
      simp [specTrace, hp, List.filter_cons, isUpdate,
        specTrace_filter_update rest]

theorem specTrace_countP_create : ∀ ps : List StatePair,
    (specTrace ps).countP isCreate =
      (ps.filter (fun p => p.uid == "")).length
  | [] => rfl
  | p :: rest => by
    by_cases hp : p.uid = "" <;>
      simp [specTrace, hp, List.filter_cons, List.countP_cons, isCreate,
        specTrace_countP_create rest]

theorem specTrace_countP_delete : ∀ ps : List StatePair,
    (specTrace ps).countP isDelete = 0
  | [] => rfl
  | p :: rest => by
    by_cases hp : p.uid = "" <;>
      simp [specTrace, hp, List.countP_cons, isDelete,
        specTrace_countP_delete rest]

theorem countP_replicate_create (n : Nat) :
    (List.replicate n Call.create).countP isCreate = n := by
  induction n with
  | zero => rfl
  | succ m ih => simp [List.replicate_succ, List.countP_cons, isCreate, ih]

theorem countP_replicate_update (n : Nat) :
    (List.replicate n Call.create).countP isUpdate = 0 := by
  induction n with
  | zero => rfl
  | succ m ih => simp [List.replicate_succ, List.countP_cons, isUpdate, ih]

theorem countP_replicate_delete (n : Nat) :
    (List.replicate n Call.create).countP isDelete = 0 := by
  induction n with
  | zero => rfl
  | succ m ih => simp [List.replicate_succ, List.countP_cons, isDelete, ih]

theorem deletePhase_trace_aux (processed : List String) :
    ∀ (current : List Record) (st : BackendState) (tr0 : List Call),
      (current.foldl
        (fun acc p =>
          if p.uid ∈ processed then acc
          else (backendDelete acc.1 p.uid, acc.2 ++ [Call.delete p.uid]))
        (st, tr0)).2 =
      tr0 ++ (current.filter (fun r => !(processed.contains r.uid))).map
        (fun r => Call.delete r.uid)
  | [], st, tr0 => by simp
  | r :: rest, st, tr0 => by
    by_cases hm : r.uid ∈ processed
    · simp only [List.foldl_cons, if_pos hm]
      rw [deletePhase_trace_aux processed rest st tr0]
      simp [List.filter_cons, hm]
    · simp only [List.foldl_cons, if_neg hm]
      rw [deletePhase_trace_aux processed rest (backendDelete st r.uid)
        (tr0 ++ [Call.delete r.uid])]
      simp [List.filter_cons, hm]

theorem deletePhase_trace (current : List Record) (processed : List String)
    (st : BackendState) :
    (deletePhase current processed st).2 =
      (current.filter (fun r => !(processed.contains r.uid))).map
        (fun r => Call.delete r.uid) := by
  have h := deletePhase_trace_aux processed current st []
  simpa [deletePhase] using h

theorem sum_map_add {α : Type} (l : List α) (f g : α → Nat) :
    (l.map (fun x => f x + g x)).sum = (l.map f).sum + (l.map g).sum := by
  induction l with
  | nil => rfl
  | cons x xs ih =>
    simp only [List.map_cons, List.sum_cons, ih]
    omega

theorem sum_map_zero {α : Type} (l : List α) :
    (l.map (fun _ => (0 : Nat))).sum = 0 := by
  induction l with
  | nil => rfl
  | cons x xs ih => simp [ih]

theorem sum_ite_zero (x : String) :
    ∀ tags : List String, x ∉ tags →
      (tags.map (fun t => if x = t then 1 else 0)).sum = 0
  | [], _ => rfl
  | t :: ts, h => by
    have hx : ¬ x = t := fun he => h (he ▸ List.mem_cons_self t ts)
    have hr : x ∉ ts := fun hm => h (List.mem_cons_of_mem t hm)
    rw [List.map_cons, List.sum_cons, if_neg hx, sum_ite_zero x ts hr]

theorem sum_ite_one (x : String) :
    ∀ tags : List String, tags.Nodup → x ∈ tags →
      (tags.map (fun t => if x = t then 1 else 0)).sum = 1
  | [], _, hm => absurd hm (List.not_mem_nil x)
  | t :: ts, hnd, hm => by
    rcases List.nodup_cons.mp hnd with ⟨hnt, hnd2⟩
    by_cases hx : x = t
    · subst hx
      rw [List.map_cons, List.sum_cons, if_pos rfl, sum_ite_zero x ts hnt]
    · have hr : x ∈ ts := by
        rcases List.mem_cons.mp hm with h1 | h1
        · exact absurd h1 hx
        · exact h1
      rw [List.map_cons, List.sum_cons, if_neg hx, sum_ite_one x ts hnd2 hr]

theorem sum_filter_length (tags : List String) :
    ∀ rs : List Record, tags.Nodup → (∀ r ∈ rs, r.type ∈ tags) →
      (tags.map (fun t => (rs.filter (fun r => r.type == t)).length)).sum =
        rs.length
  | [], _, _ => by simp [sum_map_zero]
  | r :: rs, hnd, hall => by
    have hstep : tags.map
        (fun t => ((r :: rs).filter (fun q => q.type == t)).length) =
        tags.map (fun t => (if r.type = t then 1 else 0) +
          (rs.filter (fun q => q.type == t)).length) := by
      apply List.map_congr_left
      intro t _
      rw [List.filter_cons]
      by_cases hc : r.type = t
      · simp [hc, Nat.add_comm]
      · simp [hc]
    rw [hstep, sum_map_add, sum_ite_one r.type tags hnd
      (hall r (List.mem_cons_self r rs)),
      sum_filter_length tags rs hnd
        (fun q hq => hall q (List.mem_cons_of_mem r hq))]
    simp [Nat.add_comm]

theorem filter_name_append (recsA recsB : List Record) (n : Nat) (name : String)
    (hA : ∀ r ∈ recsA, ¬ r.name = name) (hB : ∀ r ∈ recsB, r.name = name) :
    backendGetByName ⟨recsA ++ recsB, n⟩ name = recsB := by
  show (recsA ++ recsB).filter (fun r => r.name == name) = recsB
  rw [List.filter_append]
  have h1 : recsA.filter (fun r => r.name == name) = [] := by
    rw [List.filter_eq_nil]
    intro r hr
    simp [hA r hr]
  have h2 : recsB.filter (fun r => r.name == name) = recsB := by
    rw [List.filter_eq_self]
    intro r hr
    simp [hB r hr]
  rw [h1, h2, List.nil_append]

theorem deletePhase_nil (processed : List String) (st : BackendState) :
    deletePhase [] processed st = (st, []) := rfl

theorem specPairs_all_new_uid :
    ∀ (ps : List StatePair) (n0 : Nat), (∀ p ∈ ps, p.uid = "") →
      ∀ q ∈ specPairs n0 ps, q.uid ≠ ""
  | [], n0, h, q, hq => absurd hq (List.not_mem_nil q)
  | p :: rest, n0, h, q, hq => by
    have hp : p.uid = "" := h p (List.mem_cons_self p rest)
    rw [specPairs, if_pos hp] at hq
    rcases List.mem_cons.mp hq with h1 | h1
    · rw [h1]
      exact freshUID_ne_empty n0
    · exact specPairs_all_new_uid rest (n0 + 1)
        (fun x hx => h x (List.mem_cons_of_mem p hx)) q h1

/-- C1: reconciling N desired instances all carrying the empty UID against a
backend holding no record under the contact point's name issues exactly N
create calls and zero update and delete calls, and the read-back normalized
tree holds exactly N packed instances, every one carrying a non-empty UID
(as does every recorded instance pair).  The desired set is non-empty (the
schema requires at least one notifier group) and every desired instance
carries the contact point's name and a registry-recognized type tag, as the
codec unpack guarantees. -/
theorem updateContactPoint_all_new
    (metas : List NotifierMeta) (orgID : Nat) (name : String) (fuel : Nat)
    (ps : List StatePair) (isNew : Bool) (st0 : BackendState)
    (huid : ∀ p ∈ ps, p.uid = "") (hne : ps ≠ [])
    (hname : ∀ p ∈ ps, p.gfState.name = name)
    (htype : ∀ p ∈ ps, p.gfState.type ∈ metas.map (fun m => m.typeStr))
    (hnodup : (metas.map (fun m => m.typeStr)).Nodup)
    (hclean : ∀ r ∈ st0.records, ¬ r.name = name) :
    (updateContactPoint (modelRegistry metas) orgID name fuel
        (fun _ _ => none) ps isNew st0).trace.countP isCreate = ps.length ∧
    (updateContactPoint (modelRegistry metas) orgID name fuel
        (fun _ _ => none) ps isNew st0).trace.countP isUpdate = 0 ∧
    (updateContactPoint (modelRegistry metas) orgID name fuel
        (fun _ _ => none) ps isNew st0).trace.countP isDelete = 0 ∧
    ∃ (ro : ReadOutcome PackedPoint) (pairs2 : List StatePair),
      (updateContactPoint (modelRegistry metas) orgID name fuel
        (fun _ _ => none) ps isNew st0).result = .ok (ro, pairs2) ∧
      (ro.tree.map List.length).sum = ps.length ∧
      (∀ inst ∈ ro.tree.join, inst.uid ≠ "") ∧
      (∀ q ∈ pairs2, q.uid ≠ "") := by
  have hA := applyLoop_all_new orgID fuel ps 0 st0 huid
  have hget0 : backendGetByName st0 name = [] := by
    show st0.records.filter (fun r => r.name == name) = []
    rw [List.filter_eq_nil_iff]
    intro r hr
    simp [hclean r hr]
  have hcreated_names : ∀ r ∈ createdRecords st0.nextUID ps, r.name = name := by
    intro r hr
    rcases createdRecords_mem st0.nextUID ps r hr with ⟨m, p, hp, he⟩
    rw [he]
    exact hname p hp
  have hcreated_types :
      ∀ r ∈ createdRecords st0.nextUID ps,
        r.type ∈ metas.map (fun m => m.typeStr) := by
    intro r hr
    rcases createdRecords_mem st0.nextUID ps r hr with ⟨m, p, hp, he⟩
    rw [he]
    exact htype p hp
  have hcreated_uids : ∀ r ∈ createdRecords st0.nextUID ps, r.uid ≠ "" := by
    intro r hr
    rcases createdRecords_mem st0.nextUID ps r hr with ⟨m, p, hp, he⟩
    rw [he]
    exact freshUID_ne_empty m
  have hpoints : backendGetByName
      ⟨st0.records ++ createdRecords st0.nextUID ps, st0.nextUID + ps.length⟩
      name = createdRecords st0.nextUID ps :=
    filter_name_append st0.records (createdRecords st0.nextUID ps)
      (st0.nextUID + ps.length) name hclean hcreated_names
  have hcur : (if isNew then ([] : List Record) else backendGetByName st0 name)
      = [] := by
    cases isNew <;> simp [hget0]
  have hout : updateContactPoint (modelRegistry metas) orgID name fuel
      (fun _ _ => none) ps isNew st0 =
      ⟨⟨st0.records ++ createdRecords st0.nextUID ps, st0.nextUID + ps.length⟩,
       List.replicate ps.length Call.create ++ [],
       match readByName (modelRegistry metas) orgID name
         ⟨st0.records ++ createdRecords st0.nextUID ps,
          st0.nextUID + ps.length⟩ with
       | Except.error e => Except.error e
       | Except.ok ro => Except.ok (ro, specPairs st0.nextUID ps)⟩ := by
    simp only [updateContactPoint, hA, hcur, deletePhase_nil]
    rcases readByName (modelRegistry metas) orgID name
      ⟨st0.records ++ createdRecords st0.nextUID ps,
       st0.nextUID + ps.length⟩ with e | ro
    · rfl
    · rfl
  rcases hform : createdRecords st0.nextUID ps with _ | ⟨c0, crest⟩
  · exfalso
    have := createdRecords_length st0.nextUID ps
    rw [hform] at this
    exact hne (List.eq_nil_of_length_eq_zero this.symm)
  · have hread : readByName (modelRegistry metas) orgID name
        ⟨st0.records ++ createdRecords st0.nextUID ps,
         st0.nextUID + ps.length⟩ =
        Except.ok ⟨orgID, c0.name,
          metas.map (fun m =>
            ((c0 :: crest).filter
              (fun p => p.type == m.typeStr)).map modelPack)⟩ := by
      simp only [readByName]
      rw [hpoints, hform, packContactPoints_model metas (c0 :: crest)]
    refine ⟨?_, ?_, ?_,
      ⟨orgID, c0.name, metas.map (fun m =>
        ((c0 :: crest).filter
          (fun p => p.type == m.typeStr)).map modelPack)⟩,
      specPairs st0.nextUID ps, ?_, ?_, ?_, ?_⟩
    · rw [hout]
      simp [countP_replicate_create]
    · rw [hout]
      simp [countP_replicate_update]
    · rw [hout]
      simp [countP_replicate_delete]
    · rw [hout]
      simp only [hread]
    · show (List.map List.length (metas.map (fun m =>
        ((c0 :: crest).filter
          (fun p => p.type == m.typeStr)).map modelPack))).sum = ps.length
      rw [← hform, List.map_map]
      have hpt : (List.length ∘ fun m : NotifierMeta =>
          ((createdRecords st0.nextUID ps).filter
            (fun p => p.type == m.typeStr)).map modelPack) =
          (fun m : NotifierMeta =>
            ((createdRecords st0.nextUID ps).filter
              (fun p => p.type == m.typeStr)).length) := by
        funext m
        simp [Function.comp_def]
      rw [hpt, show (fun m : NotifierMeta =>
          ((createdRecords st0.nextUID ps).filter
            (fun p => p.type == m.typeStr)).length) =
          ((fun t => ((createdRecords st0.nextUID ps).filter
            (fun p => p.type == t)).length) ∘ (fun m => m.typeStr)) from rfl,
        ← List.map_map,
        sum_filter_length (metas.map (fun m => m.typeStr))
          (createdRecords st0.nextUID ps) hnodup hcreated_types,
        createdRecords_length]
    · intro inst hinst
      rcases List.mem_join.mp hinst with ⟨l, hl, hil⟩
      rcases List.mem_map.mp hl with ⟨m, hmm, hml⟩
      rw [← hml] at hil
      rcases List.mem_map.mp hil with ⟨r, hrf, hri⟩
      have hrc : r ∈ createdRecords st0.nextUID ps := by
        rw [hform]
        exact List.mem_of_mem_filter hrf
      rw [← hri]
      exact hcreated_uids r hrc
    · exact specPairs_all_new_uid ps st0.nextUID huid

/-- Closed instantiation of updateContactPoint_all_new: two new webhook
instances are created with two create calls and read back with fresh,
non-empty UIDs. -/
theorem updateContactPoint_all_new_witness :
    (updateContactPoint (modelRegistry [⟨"webhook", "webhook", []⟩]) 1 "N" 0
        (fun _ _ => none)
        [⟨"", ⟨"N", "webhook", false, []⟩⟩, ⟨"", ⟨"N", "webhook", false, []⟩⟩]
        true ⟨[], 0⟩).trace.countP isCreate = 2 ∧
    ∃ (ro : ReadOutcome PackedPoint) (pairs2 : List StatePair),
      (updateContactPoint (modelRegistry [⟨"webhook", "webhook", []⟩]) 1 "N" 0
        (fun _ _ => none)
        [⟨"", ⟨"N", "webhook", false, []⟩⟩, ⟨"", ⟨"N", "webhook", false, []⟩⟩]
        true ⟨[], 0⟩).result = .ok (ro, pairs2) ∧
      (ro.tree.map List.length).sum = 2 ∧
      (∀ inst ∈ ro.tree.join, inst.uid ≠ "") := by
  have h := updateContactPoint_all_new [⟨"webhook", "webhook", []⟩] 1 "N" 0
    [⟨"", ⟨"N", "webhook", false, []⟩⟩, ⟨"", ⟨"N", "webhook", false, []⟩⟩]
    true ⟨[], 0⟩ (by decide) (by decide) (by decide) (by decide) (by decide)
    (by decide)
  rcases h with ⟨h1, _, _, ro, pairs2, h4, h5, h6, _⟩
  exact ⟨h1, ro, pairs2, h4, h5, h6⟩

/-- C2: in a fully successful apply pass, every desired instance with a
non-empty UID contributes exactly one update call against exactly that UID
(in declaration order), every instance with an empty UID contributes exactly
one create call, and the processed UID set is exactly the recorded UIDs of
the applied instances; the deletion sweep then issues one delete call for
exactly those fetched current records whose UID is not among the processed
UIDs.  Concretely, for desired instances A (kept UID ua, changed settings)
and B (no UID) against current remote records A and C (UID uc): one update
of ua, one create, one delete of uc, and uc appears nowhere in the
post-reconciliation read. -/
theorem updateContactPoint_diff_plan :
    (∀ (orgID fuel i : Nat) (ps : List StatePair) (st : BackendState),
      (applyLoop orgID fuel (fun _ _ => none) i ps st).err = none ∧
      (applyLoop orgID fuel (fun _ _ => none) i ps st).trace.filter isUpdate =
        (ps.filter (fun p => !(p.uid == ""))).map (fun p => Call.update p.uid) ∧
      (applyLoop orgID fuel (fun _ _ => none) i ps st).trace.countP isCreate =
        (ps.filter (fun p => p.uid == "")).length ∧
      (applyLoop orgID fuel (fun _ _ => none) i ps st).processed =
        (applyLoop orgID fuel (fun _ _ => none) i ps st).pairs.map
          (fun p => p.uid)) ∧
    (∀ (current : List Record) (processed : List String) (st : BackendState),
      (deletePhase current processed st).2 =
        (current.filter (fun r => !(processed.contains r.uid))).map
          (fun r => Call.delete r.uid)) ∧
    ((updateContactPoint (modelRegistry [⟨"f1", "t1", []⟩]) 1 "N" 0
        (fun _ _ => none)
        [⟨"ua", ⟨"N", "t1", false, [("u", SVal.str "b")]⟩⟩,
         ⟨"", ⟨"N", "t1", false, []⟩⟩]
        false
        ⟨[⟨"ua", "N", "t1", false, [("u", SVal.str "a")]⟩,
          ⟨"uc", "N", "t1", false, []⟩], 0⟩).trace =
      [Call.update "ua", Call.create, Call.delete "uc"] ∧
     (updateContactPoint (modelRegistry [⟨"f1", "t1", []⟩]) 1 "N" 0
        (fun _ _ => none)
        [⟨"ua", ⟨"N", "t1", false, [("u", SVal.str "b")]⟩⟩,
         ⟨"", ⟨"N", "t1", false, []⟩⟩]
        false
        ⟨[⟨"ua", "N", "t1", false, [("u", SVal.str "a")]⟩,
          ⟨"uc", "N", "t1", false, []⟩], 0⟩).result =
      .ok (⟨1, "N", [[⟨"ua", false, [("u", "\x22b\x22")]⟩,
            ⟨"cp0", false, []⟩]]⟩,
        [⟨"ua", ⟨"N", "t1", false, [("u", SVal.str "b")]⟩⟩,
         ⟨"cp0", ⟨"N", "t1", false, []⟩⟩]) ∧
     (∀ l ∈ [[(⟨"ua", false, [("u", "\x22b\x22")]⟩ : PackedPoint),
          ⟨"cp0", false, []⟩]], ∀ inst ∈ l, inst.uid ≠ "uc")) := by
  refine ⟨?_, deletePhase_trace, ?_, ?_, ?_⟩
  · intro orgID fuel i ps st
    rcases applyLoop_success orgID fuel ps i st with ⟨st2, hB⟩
    rw [hB]
    exact ⟨rfl, specTrace_filter_update ps, specTrace_countP_create ps, rfl⟩
  · rfl
  · rfl
  · decide

/-- C3: a failing create attempt is retried exactly when the organization is
not the default (first) one and the failure status is 500, while the
two-minute budget (abstracted as fuel, the number of further attempts the
budget allows) lasts: (1) on a 500 failure with budget left, a non-default
organization makes a further attempt while the default organization fails
immediately; (2) any non-500 failure is immediately fatal; (3) a 500 failure
persisting past the budget is fatal after consuming the whole budget;
(4) a successful attempt ends the loop with the created UID; and (5), (6)
concretely: two transient 500 failures followed by a success within budget
yield a successful reconciliation with exactly one recorded, fresh UID and
no surfaced error, while a permanently failing create aborts the
reconciliation with the 500 error. -/
theorem createRetry_policy :
    (∀ (orgID : Nat) (script : Nat → Option APIError)
      (body : EmbeddedContactPoint) (k fuel2 : Nat) (st : BackendState)
      (e : APIError), script k = some e → e.code = 500 → orgID > 1 →
        retryCreate orgID script body k (fuel2 + 1) st =
          ((retryCreate orgID script body (k + 1) fuel2 st).1,
           Call.create :: (retryCreate orgID script body (k + 1) fuel2 st).2.1,
           (retryCreate orgID script body (k + 1) fuel2 st).2.2)) ∧
    (∀ (orgID : Nat) (script : Nat → Option APIError)
      (body : EmbeddedContactPoint) (k fuel : Nat) (st : BackendState)
      (e : APIError), script k = some e → orgID ≤ 1 →
        retryCreate orgID script body k fuel st =
          (st, [Call.create], Except.error e)) ∧
    (∀ (orgID : Nat) (script : Nat → Option APIError)
      (body : EmbeddedContactPoint) (k fuel : Nat) (st : BackendState)
      (e : APIError), script k = some e → e.code ≠ 500 →
        retryCreate orgID script body k fuel st =
          (st, [Call.create], Except.error e)) ∧
    (∀ (orgID : Nat) (body : EmbeddedContactPoint) (k fuel : Nat)
      (st : BackendState) (e : APIError), e.code = 500 → orgID > 1 →
        retryCreate orgID (fun _ => some e) body k fuel st =
          (st, List.replicate (fuel + 1) Call.create, Except.error e)) ∧
    (∀ (orgID : Nat) (script : Nat → Option APIError)
      (body : EmbeddedContactPoint) (k fuel : Nat) (st : BackendState),
      script k = none →
        retryCreate orgID script body k fuel st =
          ((backendPost st body).1, [Call.create],
           Except.ok (backendPost st body).2)) ∧
    ((updateContactPoint (modelRegistry [⟨"f1", "t1", []⟩]) 2 "N" 2
        (fun _ k => if k < 2 then some ⟨500⟩ else none)
        [⟨"", ⟨"N", "t1", false, []⟩⟩] true ⟨[], 0⟩).trace =
      [Call.create, Call.create, Call.create] ∧
     (updateContactPoint (modelRegistry [⟨"f1", "t1", []⟩]) 2 "N" 2
        (fun _ k => if k < 2 then some ⟨500⟩ else none)
        [⟨"", ⟨"N", "t1", false, []⟩⟩] true ⟨[], 0⟩).result =
      .ok (⟨2, "N", [[⟨"cp0", false, []⟩]]⟩,
        [⟨"cp0", ⟨"N", "t1", false, []⟩⟩])) ∧
    ((updateContactPoint (modelRegistry [⟨"f1", "t1", []⟩]) 2 "N" 2
        (fun _ _ => some ⟨500⟩)
        [⟨"", ⟨"N", "t1", false, []⟩⟩] true ⟨[], 0⟩).result =
      .error (UCErr.api ⟨500⟩) ∧
     (updateContactPoint (modelRegistry [⟨"f1", "t1", []⟩]) 2 "N" 2
        (fun _ _ => some ⟨500⟩)
        [⟨"", ⟨"N", "t1", false, []⟩⟩] true ⟨[], 0⟩).trace =
      [Call.create, Call.create, Call.create]) := by
  have hretryStep : ∀ (orgID : Nat) (script : Nat → Option APIError)
      (body : EmbeddedContactPoint) (k fuel2 : Nat) (st : BackendState)
      (e : APIError), script k = some e → e.code = 500 → orgID > 1 →
        retryCreate orgID script body k (fuel2 + 1) st =
          ((retryCreate orgID script body (k + 1) fuel2 st).1,
           Call.create :: (retryCreate orgID script body (k + 1) fuel2 st).2.1,
           (retryCreate orgID script body (k + 1) fuel2 st).2.2) := by
    intro orgID script body k fuel2 st e hk hc ho
    simp only [retryCreate, hk]
    rw [if_pos ⟨ho, hc⟩]
  have hexhaust : ∀ (orgID : Nat) (body : EmbeddedContactPoint)
      (e : APIError), e.code = 500 → orgID > 1 →
      ∀ (fuel k : Nat) (st : BackendState),
        retryCreate orgID (fun _ => some e) body k fuel st =
          (st, List.replicate (fuel + 1) Call.create, Except.error e) := by
    intro orgID body e hc ho fuel
    induction fuel with
    | zero =>
      intro k st
      simp [retryCreate]
    | succ m ih =>
      intro k st
      rw [hretryStep orgID (fun _ => some e) body k m st e rfl hc ho,
        ih (k + 1) st]
      simp [List.replicate_succ]
  refine ⟨hretryStep, ?_, ?_, ?_, ?_, ⟨?_, ?_⟩, ⟨?_, ?_⟩⟩
  · intro orgID script body k fuel st e hk ho
    cases fuel with
    | zero => simp only [retryCreate, hk]
    | succ m =>
      simp only [retryCreate, hk]
      rw [if_neg (by omega)]
  · intro orgID script body k fuel st e hk hc
    cases fuel with
    | zero => simp only [retryCreate, hk]
    | succ m =>
      simp only [retryCreate, hk]
      rw [if_neg (by simp [hc])]
  · intro orgID body k fuel st e hc ho
    exact hexhaust orgID body e hc ho fuel k st
  · intro orgID script body k fuel st hk
    exact retryCreate_script_none orgID script body k fuel st hk
  · rfl
  · rfl
  · rfl
  · rfl

/-- Closed instantiation of createRetry_policy: one 500 failure for a
non-default organization with budget left leads to a further attempt that
succeeds; the same failure for the default organization is immediately
fatal; a 403 failure is immediately fatal for any organization. -/
theorem createRetry_policy_witness :
    retryCreate 2 (fun k => if k = 0 then some ⟨500⟩ else none)
        ⟨"N", "t1", false, []⟩ 0 1 ⟨[], 0⟩ =
      (⟨[⟨"cp0", "N", "t1", false, []⟩], 1⟩, [Call.create, Call.create],
       Except.ok "cp0") ∧
    retryCreate 1 (fun _ => some ⟨500⟩) ⟨"N", "t1", false, []⟩ 0 5 ⟨[], 0⟩ =
      (⟨[], 0⟩, [Call.create], Except.error ⟨500⟩) ∧
    retryCreate 2 (fun _ => some ⟨403⟩) ⟨"N", "t1", false, []⟩ 0 5 ⟨[], 0⟩ =
      (⟨[], 0⟩, [Call.create], Except.error ⟨403⟩) := by
  refine ⟨?_, ?_, ?_⟩
  · rw [createRetry_policy.1 2 (fun k => if k = 0 then some ⟨500⟩ else none)
      ⟨"N", "t1", false, []⟩ 0 0 ⟨[], 0⟩ ⟨500⟩ (by decide) (by decide)
      (by decide)]
    rw [createRetry_policy.2.2.2.2.1 2
      (fun k => if k = 0 then some ⟨500⟩ else none)
      ⟨"N", "t1", false, []⟩ 1 0 ⟨[], 0⟩ (by decide)]
    rfl
  · exact createRetry_policy.2.1 1 (fun _ => some ⟨500⟩)
      ⟨"N", "t1", false, []⟩ 0 5 ⟨[], 0⟩ ⟨500⟩ rfl (by decide)
  · exact createRetry_policy.2.2.1 2 (fun _ => some ⟨403⟩)
      ⟨"N", "t1", false, []⟩ 0 5 ⟨[], 0⟩ ⟨403⟩ rfl (by decide)

end Grafana
